import Mathlib

/-!
# Scoped pointers of `AOCLUtils/scoped_ptrs.h`

A shallow embedding of the three owner classes of namespace `aocl_utils`:
`scoped_ptr` (released with `delete`), `scoped_array` (released with `delete[]`)
and `scoped_aligned_ptr` (released with `alignedFree`).

* A pointer is an address, `NULL` is address `0`.
* Every call the classes make to a primitive outside the header (`delete`,
  `delete[]`, `new TYPE[n]`, `alignedMalloc`, `alignedFree`) is appended, in
  program order, to a trace that the methods thread through.
* A delete-expression whose operand is the null pointer calls nothing: `delete m_ptr` and
  `delete[] m_ptr` enter the trace for a non-null `m_ptr` only.
* What an allocation primitive does is chosen by the environment, so it is an argument of
  the method that calls the primitive: `alignedMalloc` returns a pointer, null on failure;
  `new TYPE[n]` yields a pointer or throws.
-/

namespace aocl_utils

/-- A raw pointer value `TYPE *`, as an address. -/
abbrev Ptr := Nat

/-- The null pointer. -/
def NULL : Ptr := 0

/-- One call to a primitive that lives outside the header. -/
inductive Event where
  /-- the statement `delete p;` -/
  | delete (p : Ptr)
  /-- the statement `delete[] p;` -/
  | delete_array (p : Ptr)
  /-- the call `alignedFree(p)` -/
  | alignedFree (p : Ptr)
  /-- the expression `new TYPE[n]`, which evaluated to `ret` -/
  | new_array (n : Nat) (ret : Ptr)
  /-- the expression `new TYPE[n]`, which threw instead of yielding a pointer -/
  | new_array_throws (n : Nat)
  /-- the call `alignedMalloc(size)`, which returned `ret` -/
  | alignedMalloc (size : Nat) (ret : Ptr)
  deriving DecidableEq, Repr

/-- The calls made so far, oldest first. -/
abbrev Trace := List Event

/-- What the header leaves to the instantiation: the width of `size_t` in bits and
`sizeof(TYPE)`. -/
structure Target where
  size_bits : Nat
  sizeof_TYPE : Nat
  deriving DecidableEq, Repr

/-- Multiplication of two `size_t` values: the product wraps modulo `2 ^ size_bits`. -/
def size_t_mul (tg : Target) (a b : Nat) : Nat :=
  (a * b) % 2 ^ tg.size_bits

/-! ## `scoped_ptr` -/

/-- Class `scoped_ptr<TYPE>`: its only data member is `m_ptr`. -/
structure scoped_ptr where
  m_ptr : Ptr
  deriving DecidableEq, Repr

namespace scoped_ptr

/-- Constructor `scoped_ptr() : m_ptr(NULL) {}`. -/
def ctor_default : scoped_ptr := ⟨NULL⟩

/-- Constructor `scoped_ptr(TYPE *ptr) : m_ptr(ptr) {}`. -/
def ctor (ptr : Ptr) : scoped_ptr := ⟨ptr⟩

/-- Method `TYPE *get() const { return m_ptr; }`. -/
def get (self : scoped_ptr) : Ptr := self.m_ptr

/-- Conversion `operator TYPE *() const { return m_ptr; }`. -/
def to_ptr (self : scoped_ptr) : Ptr := self.m_ptr

/-- Member access `TYPE *operator ->() const { return m_ptr; }`. -/
def arrow (self : scoped_ptr) : Ptr := self.m_ptr

/-- Method `void reset(TYPE *ptr = NULL) { delete m_ptr; m_ptr = ptr; }`: the
delete-expression deallocates when `m_ptr` is not null and does nothing when it is. -/
def reset (self : scoped_ptr) (ptr : Ptr) (log : Trace) : scoped_ptr × Trace :=
  (⟨ptr⟩, if self.m_ptr ≠ NULL then log ++ [Event.delete self.m_ptr] else log)

/-- Method `TYPE *release() { TYPE *ptr = m_ptr; m_ptr = NULL; return ptr; }`:
the returned pointer, the owner afterwards, the trace afterwards. -/
def release (self : scoped_ptr) (log : Trace) : Ptr × scoped_ptr × Trace :=
  (self.m_ptr, ⟨NULL⟩, log)

/-- Assignment `this_type &operator =(TYPE *ptr) { reset(ptr); return *this; }`. -/
def assign (self : scoped_ptr) (ptr : Ptr) (log : Trace) : scoped_ptr × Trace :=
  self.reset ptr log

/-- Destructor `~scoped_ptr() { reset(); }`, the argument of `reset` defaulting to `NULL`. -/
def dtor (self : scoped_ptr) (log : Trace) : scoped_ptr × Trace :=
  self.reset NULL log

end scoped_ptr

/-! ## `scoped_array` -/

/-- Class `scoped_array<TYPE>`: its only data member is `m_ptr`. -/
structure scoped_array where
  m_ptr : Ptr
  deriving DecidableEq, Repr

namespace scoped_array

/-- Constructor `scoped_array() : m_ptr(NULL) {}`. -/
def ctor_default : scoped_array := ⟨NULL⟩

/-- Method `TYPE *get() const { return m_ptr; }`. -/
def get (self : scoped_array) : Ptr := self.m_ptr

/-- Conversion `operator TYPE *() const { return m_ptr; }`. -/
def to_ptr (self : scoped_array) : Ptr := self.m_ptr

/-- Member access `TYPE *operator ->() const { return m_ptr; }`. -/
def arrow (self : scoped_array) : Ptr := self.m_ptr

/-- Method `void reset(TYPE *ptr = NULL) { delete[] m_ptr; m_ptr = ptr; }`: the
delete-expression deallocates when `m_ptr` is not null and does nothing when it is. -/
def reset (self : scoped_array) (ptr : Ptr) (log : Trace) : scoped_array × Trace :=
  (⟨ptr⟩, if self.m_ptr ≠ NULL then log ++ [Event.delete_array self.m_ptr] else log)

/-- Method `void reset(size_t n) { reset(new TYPE[n]); }`. The argument `new TYPE[n]` is
evaluated before the body of `reset(TYPE *)` runs: when it yields a pointer (`some ret`),
`reset(TYPE *)` runs on it; when it throws (`none`), the exception leaves the member before
`reset(TYPE *)` is called, and the object is as it was. -/
def reset_n (self : scoped_array) (n : Nat) (r : Option Ptr) (log : Trace) :
    scoped_array × Trace :=
  match r with
  | some ret => self.reset ret (log ++ [Event.new_array n ret])
  | none => (self, log ++ [Event.new_array_throws n])

/-- Constructor `scoped_array(TYPE *ptr) : m_ptr(NULL) { reset(ptr); }`. -/
def ctor (ptr : Ptr) (log : Trace) : scoped_array × Trace :=
  (⟨NULL⟩ : scoped_array).reset ptr log

/-- Constructor `explicit scoped_array(size_t n) : m_ptr(NULL) { reset(n); }`. When
`new TYPE[n]` throws (`none`), the exception leaves the constructor and no object comes to
life: the result holds no object then. -/
def ctor_n (n : Nat) (r : Option Ptr) (log : Trace) : Option scoped_array × Trace :=
  match r with
  | some ret =>
      (some ((⟨NULL⟩ : scoped_array).reset_n n (some ret) log).1,
        ((⟨NULL⟩ : scoped_array).reset_n n (some ret) log).2)
  | none => (none, ((⟨NULL⟩ : scoped_array).reset_n n none log).2)

/-- Method `TYPE *release() { TYPE *ptr = m_ptr; m_ptr = NULL; return ptr; }`. -/
def release (self : scoped_array) (log : Trace) : Ptr × scoped_array × Trace :=
  (self.m_ptr, ⟨NULL⟩, log)

/-- Assignment `this_type &operator =(TYPE *ptr) { reset(ptr); return *this; }`. -/
def assign (self : scoped_array) (ptr : Ptr) (log : Trace) : scoped_array × Trace :=
  self.reset ptr log

/-- Destructor `~scoped_array() { reset(); }`. -/
def dtor (self : scoped_array) (log : Trace) : scoped_array × Trace :=
  self.reset NULL log

end scoped_array

/-! ## `scoped_aligned_ptr` -/

/-- Class `scoped_aligned_ptr<TYPE>`: its only data member is `m_ptr`. -/
structure scoped_aligned_ptr where
  m_ptr : Ptr
  deriving DecidableEq, Repr

namespace scoped_aligned_ptr

/-- Constructor `scoped_aligned_ptr() : m_ptr(NULL) {}`. -/
def ctor_default : scoped_aligned_ptr := ⟨NULL⟩

/-- Method `TYPE *get() const { return m_ptr; }`. -/
def get (self : scoped_aligned_ptr) : Ptr := self.m_ptr

/-- Conversion `operator TYPE *() const { return m_ptr; }`. -/
def to_ptr (self : scoped_aligned_ptr) : Ptr := self.m_ptr

/-- Member access `TYPE *operator ->() const { return m_ptr; }`. -/
def arrow (self : scoped_aligned_ptr) : Ptr := self.m_ptr

/-- Method `void reset(TYPE *ptr = NULL) { if(m_ptr) alignedFree(m_ptr); m_ptr = ptr; }`. -/
def reset (self : scoped_aligned_ptr) (ptr : Ptr) (log : Trace) : scoped_aligned_ptr × Trace :=
  (⟨ptr⟩, if self.m_ptr ≠ NULL then log ++ [Event.alignedFree self.m_ptr] else log)

/-- Method `void reset(size_t n) { reset((TYPE*) alignedMalloc(sizeof(TYPE) * n)); }`: the
argument is evaluated first, its size computed in `size_t`; `ret` is what `alignedMalloc`
returns. -/
def reset_n (tg : Target) (self : scoped_aligned_ptr) (n : Nat) (ret : Ptr) (log : Trace) :
    scoped_aligned_ptr × Trace :=
  self.reset ret (log ++ [Event.alignedMalloc (size_t_mul tg tg.sizeof_TYPE n) ret])

/-- Constructor `scoped_aligned_ptr(TYPE *ptr) : m_ptr(NULL) { reset(ptr); }`. -/
def ctor (ptr : Ptr) (log : Trace) : scoped_aligned_ptr × Trace :=
  (⟨NULL⟩ : scoped_aligned_ptr).reset ptr log

/-- Constructor `explicit scoped_aligned_ptr(size_t n) : m_ptr(NULL) { reset(n); }`. -/
def ctor_n (tg : Target) (n : Nat) (ret : Ptr) (log : Trace) : scoped_aligned_ptr × Trace :=
  (⟨NULL⟩ : scoped_aligned_ptr).reset_n tg n ret log

/-- Method `TYPE *release() { TYPE *ptr = m_ptr; m_ptr = NULL; return ptr; }`. -/
def release (self : scoped_aligned_ptr) (log : Trace) : Ptr × scoped_aligned_ptr × Trace :=
  (self.m_ptr, ⟨NULL⟩, log)

/-- Assignment `this_type &operator =(TYPE *ptr) { reset(ptr); return *this; }`. -/
def assign (self : scoped_aligned_ptr) (ptr : Ptr) (log : Trace) : scoped_aligned_ptr × Trace :=
  self.reset ptr log

/-- Destructor `~scoped_aligned_ptr() { reset(); }`. -/
def dtor (self : scoped_aligned_ptr) (log : Trace) : scoped_aligned_ptr × Trace :=
  self.reset NULL log

end scoped_aligned_ptr

/-! ## Reading a trace -/

/-- The operand of a deallocation call (`delete`, `delete[]` or `alignedFree`); `none` for
an allocation. -/
def Event.dealloc_arg : Event → Option Ptr
  | .delete p => some p
  | .delete_array p => some p
  | .alignedFree p => some p
  | .new_array _ _ => none
  | .new_array_throws _ => none
  | .alignedMalloc _ _ => none

/-- The operands of the deallocation calls of a trace, oldest first, null operands included. -/
def dealloc_calls (t : Trace) : List Ptr :=
  t.filterMap Event.dealloc_arg

/-- The number of deallocation calls of a trace whose operand is `x`. -/
def times_deallocated (x : Ptr) (t : Trace) : Nat :=
  (dealloc_calls t).count x

/-- The operands of the `alignedFree` calls of a trace, oldest first. -/
def alignedFree_calls (t : Trace) : List Ptr :=
  t.filterMap fun e => match e with
    | .alignedFree p => some p
    | _ => none

/-- The byte sizes requested from `alignedMalloc` in a trace, oldest first. -/
def alignedMalloc_requests (t : Trace) : List Nat :=
  t.filterMap fun e => match e with
    | .alignedMalloc size _ => some size
    | _ => none

/-! ## The three classes behind one interface

Sequences of calls are run on an `Owner`, which is an object of one of the three classes;
each call is dispatched to the method of that class. -/

/-- Which of the three class templates an object instantiates. -/
inductive Kind where
  | scoped_ptr
  | scoped_array
  | scoped_aligned_ptr
  deriving DecidableEq, Repr

/-- An object of one of the three classes. -/
inductive Owner where
  | single (o : scoped_ptr)
  | array (o : scoped_array)
  | aligned (o : scoped_aligned_ptr)
  deriving DecidableEq, Repr

/-- A constructor call that completes: no argument, a pointer, or an element count (with
the pointer the allocation yields). A constructor taking a count whose `new TYPE[n]` throws
leaves no object to call. -/
inductive Ctor where
  | no_arg
  | of_ptr (ptr : Ptr)
  | of_count (n : Nat) (ret : Ptr)
  deriving DecidableEq, Repr

/-- A call of a public mutating member on a live object. `reset()` is `reset NULL`.
`reset_n n ret` is `reset(n)` with the allocation yielding `ret`. A `reset(n)` on a
`scoped_array` whose `new TYPE[n]` throws hands nothing to the object and leaves it as it
was (see `scoped_array.reset_n`), so it is not among the calls that drive a sequence. -/
inductive Call where
  | reset (ptr : Ptr)
  | reset_n (n : Nat) (ret : Ptr)
  | assign (ptr : Ptr)
  | release
  deriving DecidableEq, Repr

namespace Owner

/-- The class of an object. -/
def kind : Owner → Kind
  | .single _ => .scoped_ptr
  | .array _ => .scoped_array
  | .aligned _ => .scoped_aligned_ptr

/-- Method `get()` of the object's class. -/
def get : Owner → Ptr
  | .single o => o.get
  | .array o => o.get
  | .aligned o => o.get

/-- Conversion `operator TYPE *()` of the object's class. -/
def to_ptr : Owner → Ptr
  | .single o => o.to_ptr
  | .array o => o.to_ptr
  | .aligned o => o.to_ptr

/-- Method `reset(ptr)` of the object's class. -/
def reset : Owner → Ptr → Trace → Owner × Trace
  | .single o, ptr, log => ((.single (o.reset ptr log).1), (o.reset ptr log).2)
  | .array o, ptr, log => ((.array (o.reset ptr log).1), (o.reset ptr log).2)
  | .aligned o, ptr, log => ((.aligned (o.reset ptr log).1), (o.reset ptr log).2)

/-- Method `release()` of the object's class. -/
def release : Owner → Trace → Ptr × Owner × Trace
  | .single o, log => ((o.release log).1, .single (o.release log).2.1, (o.release log).2.2)
  | .array o, log => ((o.release log).1, .array (o.release log).2.1, (o.release log).2.2)
  | .aligned o, log => ((o.release log).1, .aligned (o.release log).2.1, (o.release log).2.2)

/-- The destructor of the object's class. -/
def dtor : Owner → Trace → Owner × Trace
  | .single o, log => ((.single (o.dtor log).1), (o.dtor log).2)
  | .array o, log => ((.array (o.dtor log).1), (o.dtor log).2)
  | .aligned o, log => ((.aligned (o.dtor log).1), (o.dtor log).2)

/-- A constructor call of class `k`; `none` where the class has no such constructor
(`scoped_ptr` has none taking a count). -/
def construct (tg : Target) : Kind → Ctor → Trace → Option (Owner × Trace)
  | .scoped_ptr, .no_arg, log => some (.single scoped_ptr.ctor_default, log)
  | .scoped_ptr, .of_ptr ptr, log => some (.single (scoped_ptr.ctor ptr), log)
  | .scoped_ptr, .of_count _ _, _ => none
  | .scoped_array, .no_arg, log => some (.array scoped_array.ctor_default, log)
  | .scoped_array, .of_ptr ptr, log =>
      some (.array (scoped_array.ctor ptr log).1, (scoped_array.ctor ptr log).2)
  | .scoped_array, .of_count n ret, log =>
      match (scoped_array.ctor_n n (some ret) log).1 with
      | some o => some (.array o, (scoped_array.ctor_n n (some ret) log).2)
      | none => none
  | .scoped_aligned_ptr, .no_arg, log => some (.aligned scoped_aligned_ptr.ctor_default, log)
  | .scoped_aligned_ptr, .of_ptr ptr, log =>
      some (.aligned (scoped_aligned_ptr.ctor ptr log).1, (scoped_aligned_ptr.ctor ptr log).2)
  | .scoped_aligned_ptr, .of_count n ret, log =>
      some (.aligned (scoped_aligned_ptr.ctor_n tg n ret log).1,
        (scoped_aligned_ptr.ctor_n tg n ret log).2)

/-- One call on a live object: the object and the trace afterwards, and the values the call
returned from `release()` (a list with one entry for `release`, empty otherwise); `none`
where the class has no such member (`scoped_ptr` has no `reset(size_t)`). -/
def step (tg : Target) : Owner → Call → Trace → Option (Owner × Trace × List Ptr)
  | o, .reset ptr, log => some ((o.reset ptr log).1, (o.reset ptr log).2, [])
  | .single o, .assign ptr, log => some (.single (o.assign ptr log).1, (o.assign ptr log).2, [])
  | .array o, .assign ptr, log => some (.array (o.assign ptr log).1, (o.assign ptr log).2, [])
  | .aligned o, .assign ptr, log => some (.aligned (o.assign ptr log).1, (o.assign ptr log).2, [])
  | .single _, .reset_n _ _, _ => none
  | .array o, .reset_n n ret, log =>
      some (.array (o.reset_n n (some ret) log).1, (o.reset_n n (some ret) log).2, [])
  | .aligned o, .reset_n n ret, log =>
      some (.aligned (o.reset_n tg n ret log).1, (o.reset_n tg n ret log).2, [])
  | o, .release, log => some ((o.release log).2.1, (o.release log).2.2, [(o.release log).1])

/-- A sequence of calls on a live object, in order: the object and the trace at the end, and
the values returned by the `release()` calls, oldest first. -/
def exec (tg : Target) : Owner → List Call → Trace → Option (Owner × Trace × List Ptr)
  | o, [], log => some (o, log, [])
  | o, c :: cs, log =>
    match step tg o c log with
    | none => none
    | some r =>
      match exec tg r.1 cs r.2.1 with
      | none => none
      | some r2 => some (r2.1, r2.2.1, r.2.2 ++ r2.2.2)

/-- An object of class `k` from its constructor call up to some point of its life: the
constructor call, then a sequence of calls. -/
def session (tg : Target) (k : Kind) (c : Ctor) (cs : List Call) (log : Trace) :
    Option (Owner × Trace × List Ptr) :=
  match construct tg k c log with
  | none => none
  | some r => exec tg r.1 cs r.2

/-- A whole life of an object of class `k`: a constructor call, a sequence of calls, then
the destructor. -/
def lifetime (tg : Target) (k : Kind) (c : Ctor) (cs : List Call) (log : Trace) :
    Option (Owner × Trace × List Ptr) :=
  match session tg k c cs log with
  | none => none
  | some r => some ((r.1.dtor r.2.1).1, (r.1.dtor r.2.1).2, r.2.2)

end Owner

/-- The deallocation statement that belongs to a class, as its comment in the header says:
`delete` for `scoped_ptr`, `delete[]` for `scoped_array`, `alignedFree` for
`scoped_aligned_ptr`. -/
def Kind.strategy : Kind → Ptr → Event
  | .scoped_ptr, p => .delete p
  | .scoped_array, p => .delete_array p
  | .scoped_aligned_ptr, p => .alignedFree p

/-- A call that fits class `k`: if it is a deallocation, it is made with the statement of
the class; and it is not `alignedFree` on the null pointer. -/
def Event.fits (k : Kind) (e : Event) : Prop :=
  (∀ p, e.dealloc_arg = some p → e = k.strategy p) ∧ e ≠ Event.alignedFree NULL

/-- Whether class `k` has the constructor: all have the first two, only `scoped_array` and
`scoped_aligned_ptr` have the one taking a count. -/
def Ctor.defined (k : Kind) : Ctor → Bool
  | .of_count _ _ => k != Kind.scoped_ptr
  | _ => true

/-- Whether class `k` has the member: all have `reset(TYPE *)`, assignment and `release()`,
only `scoped_array` and `scoped_aligned_ptr` have `reset(size_t)`. -/
def Call.defined (k : Kind) : Call → Bool
  | .reset_n _ _ => k != Kind.scoped_ptr
  | _ => true

/-- The pointer a constructor call hands to the new object, if any. -/
def Ctor.handed : Ctor → List Ptr
  | .no_arg => []
  | .of_ptr ptr => [ptr]
  | .of_count _ ret => [ret]

/-- The pointer a call hands to the object, if any. -/
def Call.handed : Call → List Ptr
  | .reset ptr => [ptr]
  | .reset_n _ ret => [ret]
  | .assign ptr => [ptr]
  | .release => []

/-- The pointers handed to an object over a sequence of calls, oldest first. -/
def handed_in (cs : List Call) : List Ptr :=
  cs.flatMap Call.handed

/-- Whether a pointer is not the null pointer. -/
def non_null (p : Ptr) : Bool := p != NULL

/-- No aliasing by the caller: the non-null pointers handed to the object are pairwise
distinct. -/
def no_alias (c : Ctor) (cs : List Call) : Prop :=
  ((c.handed ++ handed_in cs).filter non_null).Nodup

instance (c : Ctor) (cs : List Call) : Decidable (no_alias c cs) := by
  unfold no_alias
  infer_instance

/-! ## Const members as calls -/

/-- The members that only read the held pointer: `get()`, the conversion to `TYPE *` and
`operator ->`. -/
inductive Query where
  | get
  | to_ptr
  | arrow
  deriving DecidableEq, Repr

/-- Member `operator ->` of the object's class. -/
def Owner.arrow : Owner → Ptr
  | .single o => o.arrow
  | .array o => o.arrow
  | .aligned o => o.arrow

/-- A call of one of the reading members, as a step: the value returned, the object
afterwards and the trace afterwards. The members are `const` and their body is
`return m_ptr;`, so the object and the trace are handed back as they came. -/
def Owner.observe (o : Owner) : Query → Trace → Ptr × Owner × Trace
  | .get, log => (o.get, o, log)
  | .to_ptr, log => (o.to_ptr, o, log)
  | .arrow, log => (o.arrow, o, log)

/-- Assignment from a raw pointer, of the object's class. -/
def Owner.assign : Owner → Ptr → Trace → Owner × Trace
  | .single o, ptr, log => ((.single (o.assign ptr log).1), (o.assign ptr log).2)
  | .array o, ptr, log => ((.array (o.assign ptr log).1), (o.assign ptr log).2)
  | .aligned o, ptr, log => ((.aligned (o.assign ptr log).1), (o.assign ptr log).2)

/-! ## Memory and `operator []` -/

/-- The contents of memory: the object of type `TYPE` stored at each byte address. -/
def Mem (α : Type) : Type := Int → α

/-- Reading the object at an address. -/
def Mem.read {α : Type} (m : Mem α) (loc : Int) : α := m loc

/-- Writing an object at an address; every other address keeps its content. -/
def Mem.write {α : Type} (m : Mem α) (loc : Int) (v : α) : Mem α :=
  fun l => if l = loc then v else m l

/-- The lvalue `p[index]` of a raw pointer `p` and an `int` index, as the byte address
`p + index * sizeof(TYPE)`. -/
def raw_index (tg : Target) (p : Ptr) (index : Int) : Int :=
  (p : Int) + index * (tg.sizeof_TYPE : Int)

/-- Member `TYPE &operator [](int index) const { return m_ptr[index]; }` of `scoped_array`:
the reference it returns, as an address. -/
def scoped_array.index (tg : Target) (self : scoped_array) (index : Int) : Int :=
  raw_index tg self.m_ptr index

/-- Member `TYPE &operator [](int index) const { return m_ptr[index]; }` of
`scoped_aligned_ptr`: the reference it returns, as an address. -/
def scoped_aligned_ptr.index (tg : Target) (self : scoped_aligned_ptr) (index : Int) : Int :=
  raw_index tg self.m_ptr index

/-- The statement `a[index] = v;` on a `scoped_array` `a`: the object afterwards (`operator []`
is `const`), memory afterwards, and the trace afterwards (no primitive is called). -/
def scoped_array.store {α : Type} (tg : Target) (self : scoped_array) (index : Int) (v : α)
    (mem : Mem α) (log : Trace) : scoped_array × Mem α × Trace :=
  (self, Mem.write mem (self.index tg index) v, log)

/-- A sequence of statements `a[index] = v;`, in order. -/
def scoped_array.stores {α : Type} (tg : Target) :
    scoped_array → List (Int × α) → Mem α → Trace → scoped_array × Mem α × Trace
  | self, [], mem, log => (self, mem, log)
  | self, w :: ws, mem, log =>
    scoped_array.stores tg (self.store tg w.1 w.2 mem log).1 ws
      (self.store tg w.1 w.2 mem log).2.1 (self.store tg w.1 w.2 mem log).2.2

/-- A `scoped_array` constructed by count, written through `operator []`, then destroyed:
the object at the end, memory and the trace. When `new TYPE[n]` throws in the constructor
there is no object, so nothing is written and no destructor runs. -/
def scoped_array.count_life {α : Type} (tg : Target) (n : Nat) (r : Option Ptr)
    (ws : List (Int × α)) (mem : Mem α) (log : Trace) : Option scoped_array × Mem α × Trace :=
  match (scoped_array.ctor_n n r log).1 with
  | none => (none, mem, (scoped_array.ctor_n n r log).2)
  | some a =>
    (some ((scoped_array.stores tg a ws mem (scoped_array.ctor_n n r log).2).1.dtor
        (scoped_array.stores tg a ws mem (scoped_array.ctor_n n r log).2).2.2).1,
      (scoped_array.stores tg a ws mem (scoped_array.ctor_n n r log).2).2.1,
      ((scoped_array.stores tg a ws mem (scoped_array.ctor_n n r log).2).1.dtor
        (scoped_array.stores tg a ws mem (scoped_array.ctor_n n r log).2).2.2).2)

/-- The operands of the `delete[]` statements of a trace, oldest first. -/
def delete_array_calls (t : Trace) : List Ptr :=
  t.filterMap fun e => match e with
    | .delete_array p => some p
    | _ => none

/-! ## Two owners -/

/-- The explicit transfer `dst.reset(src.release())`: the argument `src.release()` is
evaluated first. The source afterwards, the destination afterwards, the trace afterwards. -/
def transfer (src dst : Owner) (log : Trace) : Owner × Owner × Trace :=
  ((src.release log).2.1,
    (dst.reset (src.release log).1 (src.release log).2.2).1,
    (dst.reset (src.release log).1 (src.release log).2.2).2)

/-- The constructors every class has: `none` is the one without argument, `some ptr` the
one taking a pointer. -/
def Owner.construct_basic : Kind → Option Ptr → Trace → Owner × Trace
  | .scoped_ptr, none, log => (.single scoped_ptr.ctor_default, log)
  | .scoped_ptr, some ptr, log => (.single (scoped_ptr.ctor ptr), log)
  | .scoped_array, none, log => (.array scoped_array.ctor_default, log)
  | .scoped_array, some ptr, log =>
      (.array (scoped_array.ctor ptr log).1, (scoped_array.ctor ptr log).2)
  | .scoped_aligned_ptr, none, log => (.aligned scoped_aligned_ptr.ctor_default, log)
  | .scoped_aligned_ptr, some ptr, log =>
      (.aligned (scoped_aligned_ptr.ctor ptr log).1, (scoped_aligned_ptr.ctor ptr log).2)

/-- Two live objects `a` and `b`, and the trace they share. -/
structure Pair where
  a : Owner
  b : Owner
  log : Trace
  deriving DecidableEq, Repr

/-- A call on one of two objects, or a transfer from one to the other. -/
inductive PairCall where
  | reset_a (ptr : Ptr)
  | assign_a (ptr : Ptr)
  | release_a
  | reset_b (ptr : Ptr)
  | assign_b (ptr : Ptr)
  | release_b
  | a_to_b
  | b_to_a
  deriving DecidableEq, Repr

namespace Pair

/-- Two objects of class `k` are constructed, `a` first. -/
def construct (k : Kind) (pa pb : Option Ptr) (log : Trace) : Pair :=
  ⟨(Owner.construct_basic k pa log).1,
    (Owner.construct_basic k pb (Owner.construct_basic k pa log).2).1,
    (Owner.construct_basic k pb (Owner.construct_basic k pa log).2).2⟩

/-- One call on the pair. What `release()` returns goes to the caller. -/
def step (s : Pair) : PairCall → Pair
  | .reset_a ptr => ⟨(s.a.reset ptr s.log).1, s.b, (s.a.reset ptr s.log).2⟩
  | .assign_a ptr => ⟨(s.a.assign ptr s.log).1, s.b, (s.a.assign ptr s.log).2⟩
  | .release_a => ⟨(s.a.release s.log).2.1, s.b, (s.a.release s.log).2.2⟩
  | .reset_b ptr => ⟨s.a, (s.b.reset ptr s.log).1, (s.b.reset ptr s.log).2⟩
  | .assign_b ptr => ⟨s.a, (s.b.assign ptr s.log).1, (s.b.assign ptr s.log).2⟩
  | .release_b => ⟨s.a, (s.b.release s.log).2.1, (s.b.release s.log).2.2⟩
  | .a_to_b => ⟨(transfer s.a s.b s.log).1, (transfer s.a s.b s.log).2.1,
      (transfer s.a s.b s.log).2.2⟩
  | .b_to_a => ⟨(transfer s.b s.a s.log).2.1, (transfer s.b s.a s.log).1,
      (transfer s.b s.a s.log).2.2⟩

/-- A sequence of calls on the pair, in order. -/
def exec : Pair → List PairCall → Pair
  | s, [] => s
  | s, c :: cs => exec (s.step c) cs

/-- Whether both objects hold the same non-null pointer. -/
def shared (s : Pair) : Bool :=
  s.a.get != NULL && s.a.get == s.b.get

/-- Whether a call keeps to the caller's side of exclusivity: a pointer handed to one
object is null or is not the pointer the other object holds at that moment. -/
def allows (s : Pair) : PairCall → Bool
  | .reset_a ptr => ptr == NULL || ptr != s.b.get
  | .assign_a ptr => ptr == NULL || ptr != s.b.get
  | .reset_b ptr => ptr == NULL || ptr != s.a.get
  | .assign_b ptr => ptr == NULL || ptr != s.a.get
  | _ => true

/-- Whether every call of a sequence keeps to the caller's side of exclusivity, each call
judged in the state it is made in. -/
def allows_all : Pair → List PairCall → Bool
  | _, [] => true
  | s, c :: cs => s.allows c && allows_all (s.step c) cs

end Pair

/-! ## Counting deallocation calls -/

theorem dealloc_calls_append (t u : Trace) :
    dealloc_calls (t ++ u) = dealloc_calls t ++ dealloc_calls u := by
  simp [dealloc_calls, List.filterMap_append]

theorem times_deallocated_append (x : Ptr) (t u : Trace) :
    times_deallocated x (t ++ u) = times_deallocated x t + times_deallocated x u := by
  simp [times_deallocated, dealloc_calls_append, List.count_append]

theorem times_deallocated_nil (x : Ptr) : times_deallocated x [] = 0 := rfl

theorem times_deallocated_strategy (x : Ptr) (k : Kind) (p : Ptr) :
    times_deallocated x [k.strategy p] = if p = x then 1 else 0 := by
  cases k <;>
    simp [times_deallocated, dealloc_calls, Kind.strategy, Event.dealloc_arg,
      List.count_singleton]

theorem times_deallocated_delete (x p : Ptr) :
    times_deallocated x [Event.delete p] = if p = x then 1 else 0 :=
  times_deallocated_strategy x Kind.scoped_ptr p

theorem times_deallocated_delete_array (x p : Ptr) :
    times_deallocated x [Event.delete_array p] = if p = x then 1 else 0 :=
  times_deallocated_strategy x Kind.scoped_array p

theorem times_deallocated_alignedFree (x p : Ptr) :
    times_deallocated x [Event.alignedFree p] = if p = x then 1 else 0 :=
  times_deallocated_strategy x Kind.scoped_aligned_ptr p

theorem times_deallocated_new_array (x : Ptr) (n ret : Nat) :
    times_deallocated x [Event.new_array n ret] = 0 := rfl

theorem times_deallocated_alignedMalloc (x : Ptr) (n ret : Nat) :
    times_deallocated x [Event.alignedMalloc n ret] = 0 := rfl

theorem times_deallocated_cons_new_array (x : Ptr) (n ret : Nat) (t : Trace) :
    times_deallocated x (Event.new_array n ret :: t) = times_deallocated x t := rfl

theorem times_deallocated_cons_alignedMalloc (x : Ptr) (n ret : Nat) (t : Trace) :
    times_deallocated x (Event.alignedMalloc n ret :: t) = times_deallocated x t := rfl

theorem times_deallocated_new_array_throws (x : Ptr) (n : Nat) :
    times_deallocated x [Event.new_array_throws n] = 0 := rfl

/-! ## Single calls -/

theorem Owner.reset_log (o : Owner) (p : Ptr) (log : Trace) :
    (o.reset p log).2 = if o.get ≠ NULL then log ++ [o.kind.strategy o.get] else log := by
  cases o <;> rfl

theorem Owner.reset_get (o : Owner) (p : Ptr) (log : Trace) : (o.reset p log).1.get = p := by
  cases o <;> rfl

theorem Owner.reset_kind (o : Owner) (p : Ptr) (log : Trace) :
    (o.reset p log).1.kind = o.kind := by
  cases o <;> rfl

theorem Owner.dtor_eq_reset (o : Owner) (log : Trace) : o.dtor log = o.reset NULL log := by
  cases o <;> rfl

theorem Owner.release_fst (o : Owner) (log : Trace) : (o.release log).1 = o.get := by
  cases o <;> rfl

theorem Owner.release_get (o : Owner) (log : Trace) : (o.release log).2.1.get = NULL := by
  cases o <;> rfl

theorem Owner.release_kind (o : Owner) (log : Trace) : (o.release log).2.1.kind = o.kind := by
  cases o <;> rfl

theorem Owner.release_log (o : Owner) (log : Trace) : (o.release log).2.2 = log := by
  cases o <;> rfl

theorem dealloc_calls_strategy (k : Kind) (p : Ptr) : dealloc_calls [k.strategy p] = [p] := by
  cases k <;> rfl

/-- C1: for each of the three classes, `reset(q)` on an owner that holds a non-null pointer
`p` makes exactly one deallocation call, with the statement of its class and on `p` (the
trace grows by that one call and by nothing else), and afterwards `get()` is `q`. -/
theorem reset_nonempty_deallocates_once (o : Owner) (q : Ptr) (log : Trace)
    (hp : o.get ≠ NULL) :
    (o.reset q log).2 = log ++ [o.kind.strategy o.get] ∧
      dealloc_calls (o.reset q log).2 = dealloc_calls log ++ [o.get] ∧
      (o.reset q log).1.get = q ∧ (o.reset q log).1.kind = o.kind := by
  have h : (o.reset q log).2 = log ++ [o.kind.strategy o.get] := by
    rw [Owner.reset_log, if_pos hp]
  refine ⟨h, ?_, Owner.reset_get o q log, Owner.reset_kind o q log⟩
  rw [h, dealloc_calls_append, dealloc_calls_strategy]

/-- Witness of C1: a `scoped_aligned_ptr` holding address 5 is reset to address 7. -/
theorem reset_nonempty_deallocates_once_witness :
    (Owner.aligned ⟨5⟩).get ≠ NULL ∧
      ((Owner.aligned ⟨5⟩).reset 7 []).2 = [Event.alignedFree 5] ∧
      ((Owner.aligned ⟨5⟩).reset 7 []).1.get = 7 :=
  ⟨by decide,
    (reset_nonempty_deallocates_once (Owner.aligned ⟨5⟩) 7 [] (by decide)).1,
    (reset_nonempty_deallocates_once (Owner.aligned ⟨5⟩) 7 [] (by decide)).2.2.1⟩

/-- C2: for each of the three classes and every owner (holding `p`, possibly null),
`release()` returns `p`, leaves `get()` null and makes no call; the destructor run right
afterwards finds `m_ptr` null, makes no call either (the trace stays as it was) and leaves
the owner empty. In particular `release()` on a default-constructed `scoped_ptr` returns
null and its destruction calls nothing. -/
theorem release_then_dtor (o : Owner) (log : Trace) :
    (o.release log).1 = o.get ∧
      (o.release log).2.1.get = NULL ∧
      (o.release log).2.1.kind = o.kind ∧
      (o.release log).2.2 = log ∧
      ((o.release log).2.1.dtor (o.release log).2.2).1.get = NULL ∧
      ((o.release log).2.1.dtor (o.release log).2.2).2 = log ∧
      dealloc_calls ((o.release log).2.1.dtor (o.release log).2.2).2 = dealloc_calls log ∧
      (scoped_ptr.ctor_default.release log).1 = NULL ∧
      ((scoped_ptr.ctor_default.release log).2.1.dtor
        (scoped_ptr.ctor_default.release log).2.2).2 = log := by
  have h : ((o.release log).2.1.dtor (o.release log).2.2).2 = log := by
    rw [Owner.dtor_eq_reset, Owner.reset_log, Owner.release_get, Owner.release_log]
    simp
  refine ⟨Owner.release_fst o log, Owner.release_get o log, Owner.release_kind o log,
    Owner.release_log o log, ?_, h, by rw [h], rfl, rfl⟩
  rw [Owner.dtor_eq_reset, Owner.reset_get]

/-- C3: for each of the three classes, the destructor of an owner that holds a non-null
pointer `p` makes exactly one deallocation call, with the statement of its class and on `p`
(the trace grows by that one call and by nothing else), and the owner ends empty. -/
theorem dtor_nonempty_deallocates_once (o : Owner) (log : Trace) (hp : o.get ≠ NULL) :
    (o.dtor log).2 = log ++ [o.kind.strategy o.get] ∧
      dealloc_calls (o.dtor log).2 = dealloc_calls log ++ [o.get] ∧
      (o.dtor log).1.get = NULL ∧ (o.dtor log).1.kind = o.kind := by
  have h : (o.dtor log).2 = log ++ [o.kind.strategy o.get] := by
    rw [Owner.dtor_eq_reset, Owner.reset_log, if_pos hp]
  refine ⟨h, ?_, ?_, ?_⟩
  · rw [h, dealloc_calls_append, dealloc_calls_strategy]
  · rw [Owner.dtor_eq_reset, Owner.reset_get]
  · rw [Owner.dtor_eq_reset, Owner.reset_kind]

/-- Witness of C3: a `scoped_array` holding address 5 is destroyed. -/
theorem dtor_nonempty_deallocates_once_witness :
    (Owner.array ⟨5⟩).get ≠ NULL ∧
      ((Owner.array ⟨5⟩).dtor []).2 = [Event.delete_array 5] ∧
      ((Owner.array ⟨5⟩).dtor []).1.get = NULL :=
  ⟨by decide,
    (dtor_nonempty_deallocates_once (Owner.array ⟨5⟩) [] (by decide)).1,
    (dtor_nonempty_deallocates_once (Owner.array ⟨5⟩) [] (by decide)).2.2.1⟩

/-- C4: for each of the three classes, `reset()` on an empty owner makes no deallocation
call at all: the trace stays exactly as it was, so no `delete`, `delete[]` or `alignedFree`
is invoked, with a null argument or any other; and the owner stays empty. -/
theorem reset_empty (o : Owner) (log : Trace) (he : o.get = NULL) :
    (o.reset NULL log).2 = log ∧
      dealloc_calls (o.reset NULL log).2 = dealloc_calls log ∧
      (o.reset NULL log).1.get = NULL ∧ (o.reset NULL log).1.kind = o.kind := by
  have h : (o.reset NULL log).2 = log := by
    rw [Owner.reset_log]
    simp [he]
  exact ⟨h, by rw [h], Owner.reset_get o NULL log, Owner.reset_kind o NULL log⟩

/-- Witness of C4: `reset()` on a default-constructed `scoped_ptr`. -/
theorem reset_empty_witness :
    (Owner.single scoped_ptr.ctor_default).get = NULL ∧
      ((Owner.single scoped_ptr.ctor_default).reset NULL []).2 = [] ∧
      ((Owner.single scoped_ptr.ctor_default).reset NULL []).1.get = NULL :=
  ⟨rfl, (reset_empty (Owner.single scoped_ptr.ctor_default) [] rfl).1,
    (reset_empty (Owner.single scoped_ptr.ctor_default) [] rfl).2.2.1⟩

/-! ## Sequences of calls: every adoption is accounted for

For a non-null pointer `x`, the number of deallocation calls on `x`, plus the number of
times `release()` returned `x`, plus one if the owner holds `x`, grows with every call by
the number of times the call hands `x` to the owner. -/

theorem Owner.reset_times (x : Ptr) (hx : x ≠ NULL) (o : Owner) (p : Ptr) (log : Trace) :
    times_deallocated x (o.reset p log).2 =
      times_deallocated x log + (if o.get = x then 1 else 0) := by
  rw [Owner.reset_log]
  by_cases h : o.get = NULL
  · simp [h, Ne.symm hx]
  · simp [h, times_deallocated_append, times_deallocated_strategy]

theorem Owner.step_balance (tg : Target) (x : Ptr) (hx : x ≠ NULL) (o : Owner) (c : Call)
    (log : Trace) (r : Owner × Trace × List Ptr) (h : Owner.step tg o c log = some r) :
    times_deallocated x r.2.1 + r.2.2.count x + (if r.1.get = x then 1 else 0) =
      times_deallocated x log + (if o.get = x then 1 else 0) + c.handed.count x := by
  cases c with
  | reset ptr =>
    simp only [Owner.step, Option.some.injEq] at h
    subst h
    simp [Owner.reset_get, Owner.reset_times x hx, Call.handed, List.count_singleton]
  | assign ptr =>
    have h2 : r = ((o.reset ptr log).1, (o.reset ptr log).2, []) := by
      cases o <;> simp only [Owner.step, Option.some.injEq] at h <;> subst h <;> rfl
    subst h2
    simp [Owner.reset_get, Owner.reset_times x hx, Call.handed, List.count_singleton]
  | reset_n n ret =>
    cases o with
    | single s => simp [Owner.step] at h
    | array s =>
      have h2 : r = (((Owner.array s).reset ret (log ++ [Event.new_array n ret])).1,
          ((Owner.array s).reset ret (log ++ [Event.new_array n ret])).2, []) := by
        simp only [Owner.step, Option.some.injEq] at h
        subst h
        rfl
      subst h2
      simp [Owner.reset_get, Owner.reset_times x hx, Call.handed, List.count_singleton,
        times_deallocated_append, times_deallocated_new_array]
    | aligned s =>
      have h2 : r = (((Owner.aligned s).reset ret
            (log ++ [Event.alignedMalloc (size_t_mul tg tg.sizeof_TYPE n) ret])).1,
          ((Owner.aligned s).reset ret
            (log ++ [Event.alignedMalloc (size_t_mul tg tg.sizeof_TYPE n) ret])).2, []) := by
        simp only [Owner.step, Option.some.injEq] at h
        subst h
        rfl
      subst h2
      simp [Owner.reset_get, Owner.reset_times x hx, Call.handed, List.count_singleton,
        times_deallocated_append, times_deallocated_alignedMalloc]
  | release =>
    simp only [Owner.step, Option.some.injEq] at h
    subst h
    cases o <;>
      simp [Owner.release, Owner.get, scoped_ptr.release, scoped_ptr.get,
        scoped_array.release, scoped_array.get, scoped_aligned_ptr.release,
        scoped_aligned_ptr.get, Call.handed, List.count_singleton, Ne.symm hx]

theorem Owner.exec_balance (tg : Target) (x : Ptr) (hx : x ≠ NULL) (cs : List Call) :
    ∀ (o : Owner) (log : Trace) (r : Owner × Trace × List Ptr),
      Owner.exec tg o cs log = some r →
      times_deallocated x r.2.1 + r.2.2.count x + (if r.1.get = x then 1 else 0) =
        times_deallocated x log + (if o.get = x then 1 else 0) + (handed_in cs).count x := by
  induction cs with
  | nil =>
    intro o log r h
    simp only [Owner.exec, Option.some.injEq] at h
    subst h
    simp [handed_in]
  | cons c cs ih =>
    intro o log r h
    simp only [Owner.exec] at h
    cases h1 : Owner.step tg o c log with
    | none => simp [h1] at h
    | some r1 =>
      simp only [h1] at h
      cases h2 : Owner.exec tg r1.1 cs r1.2.1 with
      | none => simp [h2] at h
      | some r2 =>
        simp only [h2, Option.some.injEq] at h
        subst h
        have e1 := Owner.step_balance tg x hx o c log r1 h1
        have e2 := ih r1.1 r1.2.1 r2 h2
        have e3 : (handed_in (c :: cs)).count x = c.handed.count x + (handed_in cs).count x := by
          simp [handed_in, List.count_append]
        simp only [List.count_append]
        omega

theorem Owner.construct_balance (tg : Target) (x : Ptr) (hx : x ≠ NULL) (k : Kind) (c : Ctor)
    (log : Trace) (r : Owner × Trace) (h : Owner.construct tg k c log = some r) :
    times_deallocated x r.2 + (if r.1.get = x then 1 else 0) =
      times_deallocated x log + c.handed.count x := by
  cases k <;> cases c <;>
    simp only [Owner.construct, scoped_array.ctor_n, Option.some.injEq] at h <;>
    first
    | exact absurd h (by simp)
    | (subst h
       simp [Owner.get, scoped_ptr.ctor_default, scoped_ptr.ctor, scoped_ptr.get,
         scoped_array.ctor_default, scoped_array.ctor,
         scoped_array.reset_n, scoped_array.reset, scoped_array.get,
         scoped_aligned_ptr.ctor_default, scoped_aligned_ptr.ctor, scoped_aligned_ptr.ctor_n,
         scoped_aligned_ptr.reset_n, scoped_aligned_ptr.reset, scoped_aligned_ptr.get,
         Ctor.handed, List.count_singleton, times_deallocated_append,
         times_deallocated_delete_array, times_deallocated_new_array,
         times_deallocated_alignedMalloc, times_deallocated_cons_new_array,
         times_deallocated_cons_alignedMalloc, times_deallocated_nil, Ne.symm hx])

theorem Owner.session_balance (tg : Target) (x : Ptr) (hx : x ≠ NULL) (k : Kind) (c : Ctor)
    (cs : List Call) (log : Trace) (r : Owner × Trace × List Ptr)
    (h : Owner.session tg k c cs log = some r) :
    times_deallocated x r.2.1 + r.2.2.count x + (if r.1.get = x then 1 else 0) =
      times_deallocated x log + (c.handed ++ handed_in cs).count x := by
  simp only [Owner.session] at h
  cases h1 : Owner.construct tg k c log with
  | none => simp [h1] at h
  | some r1 =>
    simp only [h1] at h
    have e1 := Owner.construct_balance tg x hx k c log r1 h1
    have e2 := Owner.exec_balance tg x hx cs r1.1 r1.2 r h
    simp only [List.count_append]
    omega

theorem Owner.lifetime_balance (tg : Target) (x : Ptr) (hx : x ≠ NULL) (k : Kind) (c : Ctor)
    (cs : List Call) (log : Trace) (r : Owner × Trace × List Ptr)
    (h : Owner.lifetime tg k c cs log = some r) :
    times_deallocated x r.2.1 + r.2.2.count x =
      times_deallocated x log + (c.handed ++ handed_in cs).count x := by
  simp only [Owner.lifetime] at h
  cases h1 : Owner.session tg k c cs log with
  | none => simp [h1] at h
  | some r1 =>
    simp only [h1, Option.some.injEq] at h
    subst h
    have e1 := Owner.session_balance tg x hx k c cs log r1 h1
    simp only [Owner.dtor_eq_reset, Owner.reset_times x hx]
    omega

theorem Owner.lifetime_get (tg : Target) (k : Kind) (c : Ctor) (cs : List Call) (log : Trace)
    (r : Owner × Trace × List Ptr) (h : Owner.lifetime tg k c cs log = some r) :
    r.1.get = NULL := by
  simp only [Owner.lifetime] at h
  cases h1 : Owner.session tg k c cs log with
  | none => simp [h1] at h
  | some r1 =>
    simp only [h1, Option.some.injEq] at h
    subst h
    simp [Owner.dtor_eq_reset, Owner.reset_get]

/-! ## Sequences of calls: which calls are made -/

theorem mem_alignedFree_calls (p : Ptr) (t : Trace) :
    p ∈ alignedFree_calls t ↔ Event.alignedFree p ∈ t := by
  induction t with
  | nil => simp [alignedFree_calls]
  | cons e t ih =>
    cases e <;> simp_all [alignedFree_calls, List.filterMap_cons, eq_comm]

theorem Event.fits_new_array (k : Kind) (n ret : Nat) : (Event.new_array n ret).fits k := by
  simp [Event.fits, Event.dealloc_arg]

theorem Event.fits_alignedMalloc (k : Kind) (n ret : Nat) :
    (Event.alignedMalloc n ret).fits k := by
  simp [Event.fits, Event.dealloc_arg]

theorem Event.fits_strategy (k : Kind) (p : Ptr) (hp : p ≠ NULL) : (k.strategy p).fits k := by
  cases k <;> simp [Event.fits, Event.dealloc_arg, Kind.strategy, hp]

theorem Owner.reset_extends (o : Owner) (p : Ptr) (log : Trace) :
    ∃ es, (o.reset p log).2 = log ++ es ∧ ∀ e ∈ es, Event.fits o.kind e := by
  by_cases h : o.get = NULL
  · exact ⟨[], by rw [Owner.reset_log]; simp [h], by simp⟩
  · refine ⟨[o.kind.strategy o.get], by rw [Owner.reset_log, if_pos h], ?_⟩
    intro e he
    rw [List.mem_singleton] at he
    subst he
    exact Event.fits_strategy _ _ h

theorem Owner.step_extends (tg : Target) (o : Owner) (c : Call) (log : Trace)
    (r : Owner × Trace × List Ptr) (h : Owner.step tg o c log = some r) :
    r.1.kind = o.kind ∧ ∃ es, r.2.1 = log ++ es ∧ ∀ e ∈ es, Event.fits o.kind e := by
  cases c with
  | reset ptr =>
    simp only [Owner.step, Option.some.injEq] at h
    subst h
    exact ⟨Owner.reset_kind o ptr log, Owner.reset_extends o ptr log⟩
  | assign ptr =>
    have h2 : r = ((o.reset ptr log).1, (o.reset ptr log).2, []) := by
      cases o <;> simp only [Owner.step, Option.some.injEq] at h <;> subst h <;> rfl
    subst h2
    exact ⟨Owner.reset_kind o ptr log, Owner.reset_extends o ptr log⟩
  | reset_n n ret =>
    cases o with
    | single s => simp [Owner.step] at h
    | array s =>
      have h2 : r = (((Owner.array s).reset ret (log ++ [Event.new_array n ret])).1,
          ((Owner.array s).reset ret (log ++ [Event.new_array n ret])).2, []) := by
        simp only [Owner.step, Option.some.injEq] at h
        subst h
        rfl
      subst h2
      obtain ⟨es, he, hf⟩ := Owner.reset_extends (Owner.array s) ret
        (log ++ [Event.new_array n ret])
      refine ⟨rfl, Event.new_array n ret :: es, by simp [he], ?_⟩
      intro e hm
      rcases List.mem_cons.1 hm with h1 | h1
      · subst h1
        exact Event.fits_new_array _ n ret
      · exact hf e h1
    | aligned s =>
      have h2 : r = (((Owner.aligned s).reset ret
            (log ++ [Event.alignedMalloc (size_t_mul tg tg.sizeof_TYPE n) ret])).1,
          ((Owner.aligned s).reset ret
            (log ++ [Event.alignedMalloc (size_t_mul tg tg.sizeof_TYPE n) ret])).2, []) := by
        simp only [Owner.step, Option.some.injEq] at h
        subst h
        rfl
      subst h2
      obtain ⟨es, he, hf⟩ := Owner.reset_extends (Owner.aligned s) ret
        (log ++ [Event.alignedMalloc (size_t_mul tg tg.sizeof_TYPE n) ret])
      refine ⟨rfl, Event.alignedMalloc (size_t_mul tg tg.sizeof_TYPE n) ret :: es,
        by simp [he], ?_⟩
      intro e hm
      rcases List.mem_cons.1 hm with h1 | h1
      · subst h1
        exact Event.fits_alignedMalloc _ _ ret
      · exact hf e h1
  | release =>
    simp only [Owner.step, Option.some.injEq] at h
    subst h
    cases o <;> exact ⟨rfl, [], by simp [Owner.release, scoped_ptr.release,
      scoped_array.release, scoped_aligned_ptr.release], by simp⟩

theorem Owner.exec_extends (tg : Target) (cs : List Call) :
    ∀ (o : Owner) (log : Trace) (r : Owner × Trace × List Ptr),
      Owner.exec tg o cs log = some r →
      r.1.kind = o.kind ∧ ∃ es, r.2.1 = log ++ es ∧ ∀ e ∈ es, Event.fits o.kind e := by
  induction cs with
  | nil =>
    intro o log r h
    simp only [Owner.exec, Option.some.injEq] at h
    subst h
    exact ⟨rfl, [], by simp, by simp⟩
  | cons c cs ih =>
    intro o log r h
    simp only [Owner.exec] at h
    cases h1 : Owner.step tg o c log with
    | none => simp [h1] at h
    | some r1 =>
      simp only [h1] at h
      cases h2 : Owner.exec tg r1.1 cs r1.2.1 with
      | none => simp [h2] at h
      | some r2 =>
        simp only [h2, Option.some.injEq] at h
        subst h
        obtain ⟨k1, es1, he1, hf1⟩ := Owner.step_extends tg o c log r1 h1
        obtain ⟨k2, es2, he2, hf2⟩ := ih r1.1 r1.2.1 r2 h2
        refine ⟨k2.trans k1, es1 ++ es2, by simp [he2, he1], ?_⟩
        intro e hm
        rcases List.mem_append.1 hm with h3 | h3
        · exact hf1 e h3
        · exact k1 ▸ hf2 e h3

theorem Owner.construct_extends (tg : Target) (k : Kind) (c : Ctor) (log : Trace)
    (r : Owner × Trace) (h : Owner.construct tg k c log = some r) :
    r.1.kind = k ∧ ∃ es, r.2 = log ++ es ∧ ∀ e ∈ es, Event.fits k e := by
  cases k with
  | scoped_ptr =>
    cases c with
    | no_arg =>
      simp only [Owner.construct, Option.some.injEq] at h
      subst h
      exact ⟨rfl, [], by simp, by simp⟩
    | of_ptr ptr =>
      simp only [Owner.construct, Option.some.injEq] at h
      subst h
      exact ⟨rfl, [], by simp, by simp⟩
    | of_count n ret => simp [Owner.construct] at h
  | scoped_array =>
    cases c with
    | no_arg =>
      simp only [Owner.construct, Option.some.injEq] at h
      subst h
      exact ⟨rfl, [], by simp, by simp⟩
    | of_ptr ptr =>
      simp only [Owner.construct, Option.some.injEq] at h
      subst h
      exact ⟨rfl, [], by simp [scoped_array.ctor, scoped_array.reset], by simp⟩
    | of_count n ret =>
      simp only [Owner.construct, scoped_array.ctor_n, Option.some.injEq] at h
      subst h
      exact ⟨rfl, [Event.new_array n ret], by
        simp [scoped_array.reset_n, scoped_array.reset], by
        simp [Event.fits, Event.dealloc_arg]⟩
  | scoped_aligned_ptr =>
    cases c with
    | no_arg =>
      simp only [Owner.construct, Option.some.injEq] at h
      subst h
      exact ⟨rfl, [], by simp, by simp⟩
    | of_ptr ptr =>
      simp only [Owner.construct, Option.some.injEq] at h
      subst h
      exact ⟨rfl, [], by simp [scoped_aligned_ptr.ctor, scoped_aligned_ptr.reset], by simp⟩
    | of_count n ret =>
      simp only [Owner.construct, Option.some.injEq] at h
      subst h
      exact ⟨rfl, [Event.alignedMalloc (size_t_mul tg tg.sizeof_TYPE n) ret], by
        simp [scoped_aligned_ptr.ctor_n, scoped_aligned_ptr.reset_n,
          scoped_aligned_ptr.reset], by
        simp [Event.fits, Event.dealloc_arg]⟩

theorem Owner.session_extends (tg : Target) (k : Kind) (c : Ctor) (cs : List Call)
    (log : Trace) (r : Owner × Trace × List Ptr) (h : Owner.session tg k c cs log = some r) :
    r.1.kind = k ∧ ∃ es, r.2.1 = log ++ es ∧ ∀ e ∈ es, Event.fits k e := by
  simp only [Owner.session] at h
  cases h1 : Owner.construct tg k c log with
  | none => simp [h1] at h
  | some r1 =>
    simp only [h1] at h
    obtain ⟨k1, es1, he1, hf1⟩ := Owner.construct_extends tg k c log r1 h1
    obtain ⟨k2, es2, he2, hf2⟩ := Owner.exec_extends tg cs r1.1 r1.2 r h
    refine ⟨k2.trans k1, es1 ++ es2, by simp [he2, he1], ?_⟩
    intro e hm
    rcases List.mem_append.1 hm with h3 | h3
    · exact hf1 e h3
    · exact k1 ▸ hf2 e h3

theorem Owner.lifetime_extends (tg : Target) (k : Kind) (c : Ctor) (cs : List Call)
    (log : Trace) (r : Owner × Trace × List Ptr) (h : Owner.lifetime tg k c cs log = some r) :
    r.1.kind = k ∧ ∃ es, r.2.1 = log ++ es ∧ ∀ e ∈ es, Event.fits k e := by
  simp only [Owner.lifetime] at h
  cases h1 : Owner.session tg k c cs log with
  | none => simp [h1] at h
  | some r1 =>
    simp only [h1, Option.some.injEq] at h
    subst h
    obtain ⟨k1, es1, he1, hf1⟩ := Owner.session_extends tg k c cs log r1 h1
    obtain ⟨es2, he2, hf2⟩ := Owner.reset_extends r1.1 NULL r1.2.1
    refine ⟨by simp [Owner.dtor_eq_reset, Owner.reset_kind, k1], es1 ++ es2,
      by rw [Owner.dtor_eq_reset, he2, he1, List.append_assoc], ?_⟩
    intro e hm
    rcases List.mem_append.1 hm with h3 | h3
    · exact hf1 e h3
    · exact k1 ▸ hf2 e h3

/-! ## Sequences of calls: they run to the end -/

theorem Owner.step_total (tg : Target) (o : Owner) (c : Call) (log : Trace)
    (hd : c.defined o.kind = true) : ∃ r, Owner.step tg o c log = some r := by
  cases c <;> cases o <;> first
    | exact ⟨_, rfl⟩
    | exact absurd hd (by simp [Call.defined, Owner.kind])

theorem Owner.exec_total (tg : Target) (cs : List Call) :
    ∀ (o : Owner) (log : Trace), (∀ c ∈ cs, c.defined o.kind = true) →
      ∃ r, Owner.exec tg o cs log = some r := by
  induction cs with
  | nil => intro o log _; exact ⟨_, rfl⟩
  | cons c cs ih =>
    intro o log hd
    obtain ⟨r1, h1⟩ := Owner.step_total tg o c log (hd c (List.mem_cons_self c cs))
    have hk := (Owner.step_extends tg o c log r1 h1).1
    obtain ⟨r2, h2⟩ := ih r1.1 r1.2.1 (fun d hm => hk ▸ hd d (List.mem_cons_of_mem c hm))
    simp [Owner.exec, h1, h2]

theorem Owner.construct_total (tg : Target) (k : Kind) (c : Ctor) (log : Trace)
    (hd : c.defined k = true) : ∃ r, Owner.construct tg k c log = some r := by
  cases c <;> cases k <;> first
    | exact ⟨_, rfl⟩
    | exact absurd hd (by simp [Ctor.defined])

theorem Owner.session_total (tg : Target) (k : Kind) (c : Ctor) (cs : List Call) (log : Trace)
    (hc : c.defined k = true) (hd : ∀ d ∈ cs, d.defined k = true) :
    ∃ r, Owner.session tg k c cs log = some r := by
  obtain ⟨r1, h1⟩ := Owner.construct_total tg k c log hc
  have hk := (Owner.construct_extends tg k c log r1 h1).1
  obtain ⟨r2, h2⟩ := Owner.exec_total tg cs r1.1 r1.2 (fun d hm => hk ▸ hd d hm)
  exact ⟨r2, by simp [Owner.session, h1, h2]⟩

theorem Owner.lifetime_total (tg : Target) (k : Kind) (c : Ctor) (cs : List Call)
    (log : Trace) (hc : c.defined k = true) (hd : ∀ d ∈ cs, d.defined k = true) :
    ∃ r, Owner.lifetime tg k c cs log = some r := by
  obtain ⟨r1, h1⟩ := Owner.session_total tg k c cs log hc hd
  simp [Owner.lifetime, h1]

theorem count_handed_le_one (c : Ctor) (cs : List Call) (hna : no_alias c cs) (x : Ptr)
    (hx : x ≠ NULL) : (c.handed ++ handed_in cs).count x ≤ 1 := by
  have h1 := List.nodup_iff_count_le_one.1 hna x
  have h2 : non_null x = true := by simpa [non_null] using hx
  rwa [List.count_filter h2] at h1

/-! ## Sequences of calls: the claims -/

/-- C5: for every class, constructor call and finite sequence of `reset(ptr)` / `reset()` /
`release()` calls (and assignments and `reset(n)`, where the class has them) followed by the
destructor, in which the caller does not alias (the non-null pointers handed to the owner
are pairwise distinct): the run reaches its end; every non-null pointer handed to the owner
that no `release()` returned has exactly one deallocation call on it; every non-null pointer
that a `release()` returned has none. -/
theorem no_alias_deallocated_once_or_released (tg : Target) (k : Kind) (c : Ctor)
    (cs : List Call) (hc : c.defined k = true) (hd : ∀ d ∈ cs, d.defined k = true)
    (hna : no_alias c cs) :
    ∃ r, Owner.lifetime tg k c cs [] = some r ∧ r.1.get = NULL ∧
      ∀ x, x ≠ NULL →
        (x ∈ c.handed ++ handed_in cs → x ∉ r.2.2 → times_deallocated x r.2.1 = 1) ∧
        (x ∈ r.2.2 → times_deallocated x r.2.1 = 0) := by
  obtain ⟨r, hr⟩ := Owner.lifetime_total tg k c cs [] hc hd
  refine ⟨r, hr, Owner.lifetime_get tg k c cs [] r hr, ?_⟩
  intro x hx
  have hb := Owner.lifetime_balance tg x hx k c cs [] r hr
  have h1 := count_handed_le_one c cs hna x hx
  rw [times_deallocated_nil] at hb
  constructor
  · intro hm hnr
    have h2 : 0 < (c.handed ++ handed_in cs).count x := List.count_pos_iff.2 hm
    have h3 : r.2.2.count x = 0 := List.count_eq_zero.2 hnr
    omega
  · intro hm
    have h2 : 0 < r.2.2.count x := List.count_pos_iff.2 hm
    omega

/-- Witness of C5: a `scoped_array` adopts 5 at construction, is reset to 6, gives 6 away
with `release()`, adopts 7 and is destroyed: 5 and 7 are deallocated once each, 6 never. -/
theorem no_alias_deallocated_once_or_released_witness :
    no_alias (Ctor.of_ptr 5) [Call.reset 6, Call.release, Call.reset 7] ∧
      ∃ r, Owner.lifetime ⟨64, 4⟩ Kind.scoped_array (Ctor.of_ptr 5)
          [Call.reset 6, Call.release, Call.reset 7] [] = some r ∧ r.1.get = NULL ∧
        ∀ x, x ≠ NULL →
          (x ∈ (Ctor.of_ptr 5).handed ++ handed_in [Call.reset 6, Call.release, Call.reset 7] →
            x ∉ r.2.2 → times_deallocated x r.2.1 = 1) ∧
          (x ∈ r.2.2 → times_deallocated x r.2.1 = 0) :=
  ⟨by decide,
    no_alias_deallocated_once_or_released ⟨64, 4⟩ Kind.scoped_array (Ctor.of_ptr 5)
      [Call.reset 6, Call.release, Call.reset 7] rfl (by decide) (by decide)⟩

/-- C6 as stated fails: a caller that resets an owner to the pointer it already holds gets
that pointer deallocated twice, once by the `reset` and once by the destructor. Shown for a
`scoped_ptr` and a `scoped_aligned_ptr` constructed on address 5. -/
theorem self_reset_deallocates_twice :
    Owner.lifetime ⟨64, 4⟩ Kind.scoped_ptr (Ctor.of_ptr 5) [Call.reset 5] [] =
        some (Owner.single ⟨NULL⟩, [Event.delete 5, Event.delete 5], []) ∧
      Owner.lifetime ⟨64, 4⟩ Kind.scoped_aligned_ptr (Ctor.of_ptr 5) [Call.reset 5] [] =
        some (Owner.aligned ⟨NULL⟩, [Event.alignedFree 5, Event.alignedFree 5], []) ∧
      times_deallocated 5 [Event.delete 5, Event.delete 5] = 2 ∧
      times_deallocated 5 [Event.alignedFree 5, Event.alignedFree 5] = 2 := by
  decide

/-- C6, amended: for every class, constructor call and sequence of calls, up to any point
of the owner's life and after its destructor: the number of deallocation calls on a non-null
pointer never exceeds the number of times that pointer was handed to the owner, so it is at
most one when the caller does not alias; and every deallocation call is made with the
statement of the class (`delete`, `delete[]`, `alignedFree`). -/
theorem deallocations_bounded_by_adoptions (tg : Target) (k : Kind) (c : Ctor)
    (cs : List Call) (hc : c.defined k = true) (hd : ∀ d ∈ cs, d.defined k = true) :
    ∃ r r2, Owner.session tg k c cs [] = some r ∧ Owner.lifetime tg k c cs [] = some r2 ∧
      (∀ x, x ≠ NULL →
        times_deallocated x r.2.1 ≤ (c.handed ++ handed_in cs).count x ∧
        times_deallocated x r2.2.1 ≤ (c.handed ++ handed_in cs).count x) ∧
      (no_alias c cs → ∀ x, x ≠ NULL →
        times_deallocated x r.2.1 ≤ 1 ∧ times_deallocated x r2.2.1 ≤ 1) ∧
      (∀ e p, e ∈ r.2.1 ∨ e ∈ r2.2.1 → e.dealloc_arg = some p → e = k.strategy p) := by
  obtain ⟨r, hr⟩ := Owner.session_total tg k c cs [] hc hd
  obtain ⟨r2, hr2⟩ := Owner.lifetime_total tg k c cs [] hc hd
  have hb : ∀ x, x ≠ NULL →
      times_deallocated x r.2.1 ≤ (c.handed ++ handed_in cs).count x ∧
      times_deallocated x r2.2.1 ≤ (c.handed ++ handed_in cs).count x := by
    intro x hx
    have h1 := Owner.session_balance tg x hx k c cs [] r hr
    have h2 := Owner.lifetime_balance tg x hx k c cs [] r2 hr2
    rw [times_deallocated_nil] at h1 h2
    constructor <;> omega
  refine ⟨r, r2, hr, hr2, hb, ?_, ?_⟩
  · intro hna x hx
    have h1 := count_handed_le_one c cs hna x hx
    have h2 := hb x hx
    constructor <;> omega
  · intro e p hm hp
    obtain ⟨_, es, he, hf⟩ := Owner.session_extends tg k c cs [] r hr
    obtain ⟨_, es2, he2, hf2⟩ := Owner.lifetime_extends tg k c cs [] r2 hr2
    rcases hm with hm | hm
    · rw [he, List.nil_append] at hm
      exact (hf e hm).1 p hp
    · rw [he2, List.nil_append] at hm
      exact (hf2 e hm).1 p hp

/-- Witness of C6, amended: a `scoped_ptr` constructed on address 5 and reset to address 5;
the address is handed in twice. -/
theorem deallocations_bounded_by_adoptions_witness :
    ∃ r r2, Owner.session ⟨64, 4⟩ Kind.scoped_ptr (Ctor.of_ptr 5) [Call.reset 5] [] = some r ∧
      Owner.lifetime ⟨64, 4⟩ Kind.scoped_ptr (Ctor.of_ptr 5) [Call.reset 5] [] = some r2 ∧
      (∀ x, x ≠ NULL →
        times_deallocated x r.2.1 ≤ ((Ctor.of_ptr 5).handed ++ handed_in [Call.reset 5]).count x ∧
        times_deallocated x r2.2.1 ≤
          ((Ctor.of_ptr 5).handed ++ handed_in [Call.reset 5]).count x) ∧
      (no_alias (Ctor.of_ptr 5) [Call.reset 5] → ∀ x, x ≠ NULL →
        times_deallocated x r.2.1 ≤ 1 ∧ times_deallocated x r2.2.1 ≤ 1) ∧
      (∀ e p, e ∈ r.2.1 ∨ e ∈ r2.2.1 → e.dealloc_arg = some p →
        e = Kind.scoped_ptr.strategy p) :=
  deallocations_bounded_by_adoptions ⟨64, 4⟩ Kind.scoped_ptr (Ctor.of_ptr 5) [Call.reset 5]
    rfl (by decide)

/-- C7: for every constructor call and every sequence of `reset(ptr)`, `reset(n)`,
`reset()`, assignment and `release()` calls on a `scoped_aligned_ptr`, whatever
`alignedMalloc` returns (null included), up to any point of the owner's life and after its
destructor: the run reaches its end and, started on a trace without an `alignedFree` call
on the null pointer (such as the trace left by earlier objects), leaves a trace without
one. -/
theorem alignedFree_never_null (tg : Target) (c : Ctor) (cs : List Call) (log : Trace)
    (h : NULL ∉ alignedFree_calls log) :
    ∃ r r2, Owner.session tg Kind.scoped_aligned_ptr c cs log = some r ∧
      Owner.lifetime tg Kind.scoped_aligned_ptr c cs log = some r2 ∧
      NULL ∉ alignedFree_calls r.2.1 ∧ NULL ∉ alignedFree_calls r2.2.1 := by
  have hc : c.defined Kind.scoped_aligned_ptr = true := by cases c <;> rfl
  have hd : ∀ d ∈ cs, d.defined Kind.scoped_aligned_ptr = true := by
    intro d _
    cases d <;> rfl
  obtain ⟨r, hr⟩ := Owner.session_total tg _ c cs log hc hd
  obtain ⟨r2, hr2⟩ := Owner.lifetime_total tg _ c cs log hc hd
  obtain ⟨_, es, he, hf⟩ := Owner.session_extends tg _ c cs log r hr
  obtain ⟨_, es2, he2, hf2⟩ := Owner.lifetime_extends tg _ c cs log r2 hr2
  rw [mem_alignedFree_calls] at h
  refine ⟨r, r2, hr, hr2, ?_, ?_⟩
  · rw [mem_alignedFree_calls, he, List.mem_append]
    rintro (hm | hm)
    · exact h hm
    · exact (hf _ hm).2 rfl
  · rw [mem_alignedFree_calls, he2, List.mem_append]
    rintro (hm | hm)
    · exact h hm
    · exact (hf2 _ hm).2 rfl

/-- Witness of C7: construction by count with `alignedMalloc` failing, then `reset()`,
`release()`, a `reset(n)` that fails too, an assignment of null, and the destructor. -/
theorem alignedFree_never_null_witness :
    NULL ∉ alignedFree_calls [] ∧
      ∃ r r2, Owner.session ⟨64, 4⟩ Kind.scoped_aligned_ptr (Ctor.of_count 4 NULL)
          [Call.reset NULL, Call.release, Call.reset_n 2 NULL, Call.assign NULL] [] = some r ∧
        Owner.lifetime ⟨64, 4⟩ Kind.scoped_aligned_ptr (Ctor.of_count 4 NULL)
          [Call.reset NULL, Call.release, Call.reset_n 2 NULL, Call.assign NULL] [] = some r2 ∧
        NULL ∉ alignedFree_calls r.2.1 ∧ NULL ∉ alignedFree_calls r2.2.1 :=
  ⟨by decide,
    alignedFree_never_null ⟨64, 4⟩ (Ctor.of_count 4 NULL)
      [Call.reset NULL, Call.release, Call.reset_n 2 NULL, Call.assign NULL] [] (by decide)⟩

/-! ## Allocation by count -/

/-- C8: for `scoped_aligned_ptr` and every count `n`, when `alignedMalloc` returns null
during construction by count or during `reset(n)`, afterwards `get()` is null and the
destructor makes no call at all, so no `alignedFree` call; construction by count itself
makes no `alignedFree` call either. -/
theorem aligned_alloc_failure_leaves_empty (tg : Target) (n : Nat) (o : scoped_aligned_ptr)
    (log : Trace) :
    (scoped_aligned_ptr.ctor_n tg n NULL log).1.get = NULL ∧
      ((scoped_aligned_ptr.ctor_n tg n NULL log).1.dtor
          (scoped_aligned_ptr.ctor_n tg n NULL log).2).2 =
        (scoped_aligned_ptr.ctor_n tg n NULL log).2 ∧
      alignedFree_calls (scoped_aligned_ptr.ctor_n tg n NULL log).2 = alignedFree_calls log ∧
      (o.reset_n tg n NULL log).1.get = NULL ∧
      ((o.reset_n tg n NULL log).1.dtor (o.reset_n tg n NULL log).2).2 =
        (o.reset_n tg n NULL log).2 := by
  refine ⟨rfl, ?_, ?_, rfl, ?_⟩
  · simp [scoped_aligned_ptr.ctor_n, scoped_aligned_ptr.reset_n, scoped_aligned_ptr.reset,
      scoped_aligned_ptr.dtor]
  · simp [scoped_aligned_ptr.ctor_n, scoped_aligned_ptr.reset_n, scoped_aligned_ptr.reset,
      alignedFree_calls, List.filterMap_append]
  · simp [scoped_aligned_ptr.reset_n, scoped_aligned_ptr.reset, scoped_aligned_ptr.dtor]

/-- C9 as stated fails: with a 64-bit `size_t` and `sizeof(TYPE) = 4`, `reset(n)` for
`n = 2 ^ 62 + 1` asks `alignedMalloc` for 4 bytes, not for the `4 * n` bytes that `n`
elements need; when that request succeeds (address 7 here) the owner holds the buffer. -/
theorem reset_n_request_wraps :
    (scoped_aligned_ptr.ctor_default.reset_n ⟨64, 4⟩ (2 ^ 62 + 1) 7 []).2 =
        [Event.alignedMalloc 4 7] ∧
      (scoped_aligned_ptr.ctor_default.reset_n ⟨64, 4⟩ (2 ^ 62 + 1) 7 []).1.get = 7 ∧
      (7 : Ptr) ≠ NULL ∧ 2 ^ 62 + 1 < 2 ^ 64 ∧ ¬ ((2 ^ 62 + 1) * 4 ≤ 4) := by
  refine ⟨?_, rfl, by decide, by norm_num, by norm_num⟩
  simp [scoped_aligned_ptr.reset_n, scoped_aligned_ptr.reset, scoped_aligned_ptr.ctor_default,
    size_t_mul, NULL]

/-- C9, amended: for `scoped_aligned_ptr`, every count `n` and every `sizeof(TYPE)`,
`reset(n)` makes one request to `alignedMalloc`, for `sizeof(TYPE) * n` reduced modulo
`2 ^ size_bits` bytes, and adopts what `alignedMalloc` returns, so that `get()` is that
pointer (non-null when the allocation succeeds); the requested size is at least the
product `n * sizeof(TYPE)` exactly when the product is below `2 ^ size_bits`. -/
theorem reset_n_request (tg : Target) (o : scoped_aligned_ptr) (n : Nat) (ret : Ptr)
    (log : Trace) :
    alignedMalloc_requests (o.reset_n tg n ret log).2 =
        alignedMalloc_requests log ++ [(tg.sizeof_TYPE * n) % 2 ^ tg.size_bits] ∧
      (o.reset_n tg n ret log).1.get = ret ∧
      (n * tg.sizeof_TYPE ≤ (tg.sizeof_TYPE * n) % 2 ^ tg.size_bits ↔
        tg.sizeof_TYPE * n < 2 ^ tg.size_bits) := by
  refine ⟨?_, rfl, ?_⟩
  · by_cases h : o.m_ptr = NULL <;>
      simp [scoped_aligned_ptr.reset_n, scoped_aligned_ptr.reset, alignedMalloc_requests,
        List.filterMap_append, size_t_mul, h]
  · have hpos : 0 < 2 ^ tg.size_bits := Nat.pow_pos (by decide)
    constructor
    · intro hle
      by_contra hge
      have hlt := Nat.mod_lt (tg.sizeof_TYPE * n) hpos
      have hc := Nat.mul_comm n tg.sizeof_TYPE
      omega
    · intro hlt
      rw [Nat.mod_eq_of_lt hlt, Nat.mul_comm]

/-- C10 as stated fails: `reset(n)` evaluates its argument, the allocation, before the body
of `reset(TYPE *)` deallocates the old buffer. Shown for a `scoped_array` and a
`scoped_aligned_ptr` that hold address 5 and get address 9 for 3 elements. -/
theorem reset_n_allocates_before_deallocating :
    ((scoped_array.mk 5).reset_n 3 (some 9) []).2 =
        [Event.new_array 3 9, Event.delete_array 5] ∧
      ((scoped_array.mk 5).reset_n 3 (some 9) []).2 ≠
        [Event.delete_array 5, Event.new_array 3 9] ∧
      ((scoped_aligned_ptr.mk 5).reset_n ⟨64, 4⟩ 3 9 []).2 =
        [Event.alignedMalloc 12 9, Event.alignedFree 5] ∧
      ((scoped_aligned_ptr.mk 5).reset_n ⟨64, 4⟩ 3 9 []).2 ≠
        [Event.alignedFree 5, Event.alignedMalloc 12 9] := by
  decide

/-- C10, amended: for `scoped_array` and `scoped_aligned_ptr`, every owner holding a
non-null pointer `p` and every count `n`, `reset(n)` makes the allocation request first.
When the request returns a pointer `ret` (`new TYPE[n]` yielding it; `alignedMalloc`
returning it, null on failure), the deallocation of `p` follows as the second and last call
and the owner then holds `ret`. When `new TYPE[n]` throws in a `scoped_array`, the failed
request is the only call: nothing is deallocated and the owner still holds `p`. -/
theorem reset_n_order (tg : Target) (p : Ptr) (n : Nat) (ret : Ptr) (log : Trace)
    (hp : p ≠ NULL) :
    ((scoped_array.mk p).reset_n n (some ret) log).2 =
        log ++ [Event.new_array n ret, Event.delete_array p] ∧
      ((scoped_array.mk p).reset_n n (some ret) log).1.get = ret ∧
      ((scoped_array.mk p).reset_n n none log).2 = log ++ [Event.new_array_throws n] ∧
      dealloc_calls ((scoped_array.mk p).reset_n n none log).2 = dealloc_calls log ∧
      ((scoped_array.mk p).reset_n n none log).1.get = p ∧
      ((scoped_aligned_ptr.mk p).reset_n tg n ret log).2 =
        log ++ [Event.alignedMalloc (size_t_mul tg tg.sizeof_TYPE n) ret,
          Event.alignedFree p] ∧
      ((scoped_aligned_ptr.mk p).reset_n tg n ret log).1.get = ret := by
  refine ⟨?_, rfl, rfl, ?_, rfl, ?_, rfl⟩
  · simp [scoped_array.reset_n, scoped_array.reset, hp]
  · simp [scoped_array.reset_n, dealloc_calls, Event.dealloc_arg, List.filterMap_append]
  · simp [scoped_aligned_ptr.reset_n, scoped_aligned_ptr.reset, hp]

/-- Witness of C10, amended: owners holding address 5 get address 9 for 3 elements, or, for
the `scoped_array`, an exception from `new TYPE[3]`. -/
theorem reset_n_order_witness :
    (5 : Ptr) ≠ NULL ∧
      ((scoped_array.mk 5).reset_n 3 (some 9) []).2 =
        [] ++ [Event.new_array 3 9, Event.delete_array 5] ∧
      ((scoped_array.mk 5).reset_n 3 (some 9) []).1.get = 9 ∧
      ((scoped_array.mk 5).reset_n 3 none []).2 = [] ++ [Event.new_array_throws 3] ∧
      dealloc_calls ((scoped_array.mk 5).reset_n 3 none []).2 = dealloc_calls [] ∧
      ((scoped_array.mk 5).reset_n 3 none []).1.get = 5 ∧
      ((scoped_aligned_ptr.mk 5).reset_n ⟨64, 4⟩ 3 9 []).2 =
        [] ++ [Event.alignedMalloc (size_t_mul ⟨64, 4⟩ 4 3) 9, Event.alignedFree 5] ∧
      ((scoped_aligned_ptr.mk 5).reset_n ⟨64, 4⟩ 3 9 []).1.get = 9 :=
  ⟨by decide, reset_n_order ⟨64, 4⟩ 5 3 9 [] (by decide)⟩

/-! ## The held pointer over a sequence of calls -/

theorem no_alias_of_append (c : Ctor) (cs1 cs2 : List Call) (h : no_alias c (cs1 ++ cs2)) :
    no_alias c cs1 := by
  unfold no_alias at h ⊢
  have e : c.handed ++ handed_in (cs1 ++ cs2) = (c.handed ++ handed_in cs1) ++ handed_in cs2 := by
    simp [handed_in, List.flatMap_append, List.append_assoc]
  rw [e, List.filter_append] at h
  exact h.of_append_left

/-- C11 as stated fails: after `reset(5)` on an owner constructed on address 5 the owner
holds address 5, which that very `reset` has deallocated. Shown for a `scoped_ptr` and a
`scoped_aligned_ptr`. -/
theorem self_reset_holds_deallocated_pointer :
    Owner.session ⟨64, 4⟩ Kind.scoped_ptr (Ctor.of_ptr 5) [Call.reset 5] [] =
        some (Owner.single ⟨5⟩, [Event.delete 5], []) ∧
      Owner.session ⟨64, 4⟩ Kind.scoped_aligned_ptr (Ctor.of_ptr 5) [Call.reset 5] [] =
        some (Owner.aligned ⟨5⟩, [Event.alignedFree 5], []) ∧
      (5 : Ptr) ≠ NULL ∧
      times_deallocated 5 [Event.delete 5] = 1 ∧
      times_deallocated 5 [Event.alignedFree 5] = 1 := by
  decide

/-- C11, amended: for each of the three classes, after the constructor call and after every
further call of every sequence of `reset` / assignment / `release` calls (and `reset(n)`,
where the class has it) in which the caller does not alias (the non-null pointers handed to
the owner over the whole sequence are pairwise distinct), the pointer held by the owner is
null or has no deallocation call on it. -/
theorem no_alias_held_not_deallocated (tg : Target) (k : Kind) (c : Ctor)
    (cs1 cs2 : List Call) (hc : c.defined k = true) (hd : ∀ d ∈ cs1, d.defined k = true)
    (hna : no_alias c (cs1 ++ cs2)) :
    ∃ r, Owner.session tg k c cs1 [] = some r ∧
      (r.1.get = NULL ∨ times_deallocated r.1.get r.2.1 = 0) := by
  obtain ⟨r, hr⟩ := Owner.session_total tg k c cs1 [] hc hd
  refine ⟨r, hr, ?_⟩
  by_cases h0 : r.1.get = NULL
  · exact Or.inl h0
  · right
    have hb := Owner.session_balance tg r.1.get h0 k c cs1 [] r hr
    have h1 := count_handed_le_one c cs1 (no_alias_of_append c cs1 cs2 hna) r.1.get h0
    rw [times_deallocated_nil] at hb
    simp only [if_true] at hb
    omega

/-- Witness of C11, amended: a `scoped_aligned_ptr` constructed on 5, reset to 6 and asked
to release, in a sequence that goes on with a reset to 7. -/
theorem no_alias_held_not_deallocated_witness :
    no_alias (Ctor.of_ptr 5) ([Call.reset 6, Call.release] ++ [Call.reset 7]) ∧
      ∃ r, Owner.session ⟨64, 4⟩ Kind.scoped_aligned_ptr (Ctor.of_ptr 5)
          [Call.reset 6, Call.release] [] = some r ∧
        (r.1.get = NULL ∨ times_deallocated r.1.get r.2.1 = 0) :=
  ⟨by decide,
    no_alias_held_not_deallocated ⟨64, 4⟩ Kind.scoped_aligned_ptr (Ctor.of_ptr 5)
      [Call.reset 6, Call.release] [Call.reset 7] rfl (by decide) (by decide)⟩

/-! ## Two owners -/

theorem Owner.assign_eq_reset (o : Owner) (p : Ptr) (log : Trace) :
    o.assign p log = o.reset p log := by
  cases o <;> rfl

theorem Pair.shared_eq_false_iff (s : Pair) :
    s.shared = false ↔ (s.a.get = NULL ∨ s.a.get ≠ s.b.get) := by
  unfold Pair.shared
  by_cases h1 : s.a.get = NULL <;> by_cases h2 : s.a.get = s.b.get <;> simp [h1, h2]

theorem Pair.step_keeps_apart (s : Pair) (c : PairCall) (hs : s.shared = false)
    (ha : s.allows c = true) : (s.step c).shared = false := by
  rw [Pair.shared_eq_false_iff] at hs ⊢
  cases c with
  | reset_a ptr =>
    simp only [Pair.allows, Bool.or_eq_true, beq_iff_eq, bne_iff_ne] at ha
    simp only [Pair.step, Owner.reset_get]
    exact ha
  | assign_a ptr =>
    simp only [Pair.allows, Bool.or_eq_true, beq_iff_eq, bne_iff_ne] at ha
    simp only [Pair.step, Owner.assign_eq_reset, Owner.reset_get]
    exact ha
  | release_a =>
    simp only [Pair.step, Owner.release_get]
    exact Or.inl trivial
  | reset_b ptr =>
    simp only [Pair.allows, Bool.or_eq_true, beq_iff_eq, bne_iff_ne] at ha
    simp only [Pair.step, Owner.reset_get]
    rcases ha with ha | ha
    · rcases hs with hs | _
      · exact Or.inl hs
      · by_cases h0 : s.a.get = NULL
        · exact Or.inl h0
        · exact Or.inr (fun h => h0 (h.trans ha))
    · exact Or.inr (fun h => ha h.symm)
  | assign_b ptr =>
    simp only [Pair.allows, Bool.or_eq_true, beq_iff_eq, bne_iff_ne] at ha
    simp only [Pair.step, Owner.assign_eq_reset, Owner.reset_get]
    rcases ha with ha | ha
    · by_cases h0 : s.a.get = NULL
      · exact Or.inl h0
      · exact Or.inr (fun h => h0 (h.trans ha))
    · exact Or.inr (fun h => ha h.symm)
  | release_b =>
    simp only [Pair.step, Owner.release_get]
    by_cases h0 : s.a.get = NULL
    · exact Or.inl h0
    · exact Or.inr h0
  | a_to_b =>
    simp only [Pair.step, transfer, Owner.release_get]
    exact Or.inl trivial
  | b_to_a =>
    simp only [Pair.step, transfer, Owner.release_get, Owner.reset_get, Owner.release_fst]
    by_cases h0 : s.b.get = NULL
    · exact Or.inl h0
    · exact Or.inr h0

theorem Pair.exec_keeps_apart (cs1 cs2 : List PairCall) :
    ∀ s : Pair, s.shared = false → s.allows_all (cs1 ++ cs2) = true →
      (s.exec cs1).shared = false := by
  induction cs1 with
  | nil => intro s hs _; exact hs
  | cons c cs ih =>
    intro s hs ha
    simp only [List.cons_append, Pair.allows_all, Bool.and_eq_true] at ha
    exact ih (s.step c) (Pair.step_keeps_apart s c hs ha.1) ha.2

/-- C12 as stated fails: nothing stops a caller from handing the same pointer to two
owners. Two `scoped_ptr` constructed on address 5 both hold it; so do a `scoped_ptr`
constructed on 5 and a default-constructed one after `b.reset(5)`. -/
theorem two_owners_can_hold_same_pointer :
    (Pair.construct Kind.scoped_ptr (some 5) (some 5) []).a.get = 5 ∧
      (Pair.construct Kind.scoped_ptr (some 5) (some 5) []).b.get = 5 ∧
      (Pair.construct Kind.scoped_ptr (some 5) (some 5) []).shared = true ∧
      ((Pair.construct Kind.scoped_ptr (some 5) none []).exec [PairCall.reset_b 5]).shared =
        true := by
  decide

/-- C12, amended: in a system of two owners of the same class, constructed without a shared
non-null pointer and driven by any sequence of `reset`, assignment, `release()` and
transfers `b.reset(a.release())` / `a.reset(b.release())` in which the caller never hands
an owner a non-null pointer that the other owner holds at that moment, at no time do both
owners hold the same non-null pointer. -/
theorem two_owners_stay_apart (k : Kind) (pa pb : Option Ptr) (log : Trace)
    (cs1 cs2 : List PairCall) (h0 : (Pair.construct k pa pb log).shared = false)
    (ha : (Pair.construct k pa pb log).allows_all (cs1 ++ cs2) = true) :
    ((Pair.construct k pa pb log).exec cs1).shared = false ∧
      ¬ (((Pair.construct k pa pb log).exec cs1).a.get ≠ NULL ∧
        ((Pair.construct k pa pb log).exec cs1).a.get =
          ((Pair.construct k pa pb log).exec cs1).b.get) := by
  have h := Pair.exec_keeps_apart cs1 cs2 _ h0 ha
  refine ⟨h, ?_⟩
  rintro ⟨h1, h2⟩
  rcases (Pair.shared_eq_false_iff _).1 h with h3 | h3
  · exact h1 h3
  · exact h3 h2

/-- Witness of C12, amended: two `scoped_aligned_ptr` on 5 and 6; `a` gives 5 to `b`, gets
it back, releases it to the caller, who hands it to `b`; a reset of `a` to 7 follows. -/
theorem two_owners_stay_apart_witness :
    (Pair.construct Kind.scoped_aligned_ptr (some 5) (some 6) []).shared = false ∧
      (Pair.construct Kind.scoped_aligned_ptr (some 5) (some 6) []).allows_all
        ([PairCall.a_to_b, PairCall.b_to_a, PairCall.release_a, PairCall.reset_b 5] ++
          [PairCall.reset_a 7]) = true ∧
      ((Pair.construct Kind.scoped_aligned_ptr (some 5) (some 6) []).exec
        [PairCall.a_to_b, PairCall.b_to_a, PairCall.release_a, PairCall.reset_b 5]).shared =
        false :=
  ⟨by decide, by decide,
    (two_owners_stay_apart Kind.scoped_aligned_ptr (some 5) (some 6) []
      [PairCall.a_to_b, PairCall.b_to_a, PairCall.release_a, PairCall.reset_b 5]
      [PairCall.reset_a 7] (by decide) (by decide)).1⟩

/-- C13: for two owners `a` and `b`, `a` holding `p` and `b` holding `q` different from `p`
(either possibly null), the transfer `b.reset(a.release())` leaves `a` empty and `b`
holding `p`, makes no deallocation call on `p`, and when `q` is non-null makes exactly one
call, the deallocation of `q` with the statement of the class of `b`. -/
theorem transfer_moves_ownership (a b : Owner) (log : Trace) (hne : b.get ≠ a.get) :
    (transfer a b log).1.get = NULL ∧
      (transfer a b log).2.1.get = a.get ∧
      (transfer a b log).1.kind = a.kind ∧ (transfer a b log).2.1.kind = b.kind ∧
      times_deallocated a.get (transfer a b log).2.2 = times_deallocated a.get log ∧
      (b.get ≠ NULL →
        (transfer a b log).2.2 = log ++ [b.kind.strategy b.get] ∧
        times_deallocated b.get (transfer a b log).2.2 = times_deallocated b.get log + 1) := by
  refine ⟨Owner.release_get a log, ?_, Owner.release_kind a log, ?_, ?_, ?_⟩
  · simp [transfer, Owner.reset_get, Owner.release_fst]
  · simp [transfer, Owner.reset_kind]
  · simp only [transfer, Owner.release_log, Owner.release_fst, Owner.reset_log]
    by_cases h0 : b.get = NULL
    · simp [h0]
    · simp [h0, times_deallocated_append, times_deallocated_strategy, hne]
  · intro hq
    simp only [transfer, Owner.release_log, Owner.release_fst, Owner.reset_log]
    simp [hq, times_deallocated_append, times_deallocated_strategy]

/-- Witness of C13: `a` holds 5, `b` holds 6, both `scoped_array`. -/
theorem transfer_moves_ownership_witness :
    (Owner.array ⟨6⟩).get ≠ (Owner.array ⟨5⟩).get ∧
      (transfer (Owner.array ⟨5⟩) (Owner.array ⟨6⟩) []).1.get = NULL ∧
      (transfer (Owner.array ⟨5⟩) (Owner.array ⟨6⟩) []).2.1.get = 5 ∧
      (transfer (Owner.array ⟨5⟩) (Owner.array ⟨6⟩) []).2.2 = [Event.delete_array 6] :=
  ⟨by decide,
    (transfer_moves_ownership (Owner.array ⟨5⟩) (Owner.array ⟨6⟩) [] (by decide)).1,
    (transfer_moves_ownership (Owner.array ⟨5⟩) (Owner.array ⟨6⟩) [] (by decide)).2.1,
    ((transfer_moves_ownership (Owner.array ⟨5⟩) (Owner.array ⟨6⟩) []
      (by decide)).2.2.2.2.2 (by decide)).1⟩

/-! ## Element access -/

theorem scoped_array.stores_frame {α : Type} (tg : Target) (ws : List (Int × α)) :
    ∀ (self : scoped_array) (mem : Mem α) (log : Trace),
      (scoped_array.stores tg self ws mem log).1 = self ∧
        (scoped_array.stores tg self ws mem log).2.2 = log := by
  induction ws with
  | nil => intro self mem log; exact ⟨rfl, rfl⟩
  | cons w ws ih =>
    intro self mem log
    simp only [scoped_array.stores]
    exact ih _ _ _

theorem scoped_array.ctor_n_some (n : Nat) (ret : Ptr) (log : Trace) :
    scoped_array.ctor_n n (some ret) log = (some ⟨ret⟩, log ++ [Event.new_array n ret]) := by
  simp [scoped_array.ctor_n, scoped_array.reset_n, scoped_array.reset]

/-- C14: for `scoped_array` and every count `n` for which `new TYPE[n]` yields a non-null
pointer `ret`: constructing by count, then any number of element writes through
`operator []`, then destroying the owner records exactly one `delete[]` call, and it is on
`ret` (it is the only deallocation call of any kind, made by the destructor after the
allocation). The element writes change neither the held pointer, which is `ret` from the
constructor on, nor the trace. -/
theorem count_life_deallocates_allocation {α : Type} (tg : Target) (n : Nat) (ret : Ptr)
    (ws : List (Int × α)) (mem : Mem α) (log : Trace) (hret : ret ≠ NULL) :
    (scoped_array.count_life tg n (some ret) ws mem log).2.2 =
        log ++ [Event.new_array n ret, Event.delete_array ret] ∧
      delete_array_calls (scoped_array.count_life tg n (some ret) ws mem log).2.2 =
        delete_array_calls log ++ [ret] ∧
      dealloc_calls (scoped_array.count_life tg n (some ret) ws mem log).2.2 =
        dealloc_calls log ++ [ret] ∧
      (scoped_array.ctor_n n (some ret) log).1 = some ⟨ret⟩ ∧
      (scoped_array.stores tg ⟨ret⟩ ws mem (scoped_array.ctor_n n (some ret) log).2).1.get =
        ret ∧
      (scoped_array.stores tg ⟨ret⟩ ws mem (scoped_array.ctor_n n (some ret) log).2).2.2 =
        (scoped_array.ctor_n n (some ret) log).2 ∧
      (scoped_array.count_life tg n (some ret) ws mem log).1 = some ⟨NULL⟩ := by
  have hf := scoped_array.stores_frame tg ws ⟨ret⟩ mem (log ++ [Event.new_array n ret])
  have ht : (scoped_array.count_life tg n (some ret) ws mem log).2.2 =
      log ++ [Event.new_array n ret, Event.delete_array ret] := by
    simp [scoped_array.count_life, scoped_array.ctor_n_some, hf.1, hf.2, scoped_array.dtor,
      scoped_array.reset, hret]
  refine ⟨ht, ?_, ?_, ?_, ?_, ?_, ?_⟩
  · rw [ht]
    simp [delete_array_calls, List.filterMap_append]
  · rw [ht]
    simp [dealloc_calls, Event.dealloc_arg, List.filterMap_append]
  · rw [scoped_array.ctor_n_some]
  · rw [scoped_array.ctor_n_some, hf.1]
    rfl
  · rw [scoped_array.ctor_n_some, hf.2]
  · simp [scoped_array.count_life, scoped_array.ctor_n_some, hf.1, scoped_array.dtor,
      scoped_array.reset]

/-- Witness of C14: count 10, allocation at address 100, one write of 42 at index 3. -/
theorem count_life_deallocates_allocation_witness :
    (100 : Ptr) ≠ NULL ∧
      (scoped_array.count_life ⟨64, 4⟩ 10 (some 100) [((3 : Int), (42 : Int))]
        (fun _ => 0) []).2.2 = [] ++ [Event.new_array 10 100, Event.delete_array 100] ∧
      delete_array_calls (scoped_array.count_life ⟨64, 4⟩ 10 (some 100)
        [((3 : Int), (42 : Int))] (fun _ => 0) []).2.2 = delete_array_calls [] ++ [100] :=
  ⟨by decide,
    (count_life_deallocates_allocation ⟨64, 4⟩ 10 100 [((3 : Int), (42 : Int))] (fun _ => 0) []
      (by decide)).1,
    (count_life_deallocates_allocation ⟨64, 4⟩ 10 100 [((3 : Int), (42 : Int))] (fun _ => 0) []
      (by decide)).2.1⟩

/-- C16: for `scoped_array` and `scoped_aligned_ptr` holding `p`, and every index `i`,
negative ones included, `operator []` yields the location of the raw expression `p[i]`,
that is `p + i * sizeof(TYPE)`; so a write through `owner[i]` is read back through `p[i]`
and a write through `p[i]` is read back through `owner[i]`. The operator is defined for
every index: it checks no bound. -/
theorem index_is_raw_index {α : Type} (tg : Target) (a : scoped_array)
    (s : scoped_aligned_ptr) (i : Int) (mem : Mem α) (v : α) (log : Trace) :
    a.index tg i = raw_index tg a.get i ∧
      s.index tg i = raw_index tg s.get i ∧
      a.index tg i = (a.get : Int) + i * (tg.sizeof_TYPE : Int) ∧
      s.index tg i = (s.get : Int) + i * (tg.sizeof_TYPE : Int) ∧
      Mem.read (a.store tg i v mem log).2.1 (raw_index tg a.get i) = v ∧
      Mem.read (Mem.write mem (raw_index tg a.get i) v) (a.index tg i) = v ∧
      Mem.read (Mem.write mem (s.index tg i) v) (raw_index tg s.get i) = v ∧
      Mem.read (Mem.write mem (raw_index tg s.get i) v) (s.index tg i) = v := by
  refine ⟨rfl, rfl, rfl, rfl, ?_, ?_, ?_, ?_⟩ <;>
    simp [scoped_array.store, scoped_array.index, scoped_array.get, scoped_aligned_ptr.index,
      scoped_aligned_ptr.get, Mem.read, Mem.write]

/-! ## Reading the held pointer -/

/-- C15: for each of the three classes the conversion to `TYPE *` and `operator ->` return
exactly what `get()` returns, in every state of the owner; in particular in every state
reached by a constructor call followed by any sequence of calls, and in the state the
destructor finds. -/
theorem conversions_agree_with_get :
    (∀ o : Owner, o.to_ptr = o.get ∧ o.arrow = o.get) ∧
      (∀ s : scoped_ptr, s.to_ptr = s.get ∧ s.arrow = s.get) ∧
      (∀ s : scoped_array, s.to_ptr = s.get ∧ s.arrow = s.get) ∧
      (∀ s : scoped_aligned_ptr, s.to_ptr = s.get ∧ s.arrow = s.get) ∧
      (∀ (tg : Target) (k : Kind) (c : Ctor) (cs : List Call) (log : Trace)
        (r : Owner × Trace × List Ptr), Owner.session tg k c cs log = some r →
          r.1.to_ptr = r.1.get ∧ r.1.arrow = r.1.get) := by
  have h : ∀ o : Owner, o.to_ptr = o.get ∧ o.arrow = o.get := by
    intro o
    cases o <;> exact ⟨rfl, rfl⟩
  exact ⟨h, fun _ => ⟨rfl, rfl⟩, fun _ => ⟨rfl, rfl⟩, fun _ => ⟨rfl, rfl⟩,
    fun _ _ _ _ _ r _ => h r.1⟩

/-- Witness of C15: a `scoped_array` constructed on address 5, then reset to address 6. -/
theorem conversions_agree_with_get_witness :
    Owner.session ⟨64, 4⟩ Kind.scoped_array (Ctor.of_ptr 5) [Call.reset 6] [] =
        some (Owner.array ⟨6⟩, [Event.delete_array 5], []) ∧
      (Owner.array ⟨6⟩).to_ptr = (Owner.array ⟨6⟩).get ∧
      (Owner.array ⟨6⟩).arrow = (Owner.array ⟨6⟩).get :=
  ⟨by decide,
    conversions_agree_with_get.2.2.2.2 ⟨64, 4⟩ Kind.scoped_array (Ctor.of_ptr 5) [Call.reset 6]
      [] (Owner.array ⟨6⟩, [Event.delete_array 5], []) (by decide)⟩

/-- C17: for each of the three classes, a call of `get()`, of the conversion to `TYPE *` or
of `operator ->` returns the held pointer and leaves the owner as it was, the held pointer
included, and the trace as it was: no allocation and no deallocation call is made. -/
theorem observe_changes_nothing (o : Owner) (q : Query) (log : Trace) :
    (o.observe q log).1 = o.get ∧
      (o.observe q log).2.1 = o ∧
      (o.observe q log).2.1.get = o.get ∧
      (o.observe q log).2.2 = log := by
  cases q <;> cases o <;> exact ⟨rfl, rfl, rfl, rfl⟩

/-! ## Self-reset and round trip -/

/-- C18: for each of the three classes and an owner holding a non-null pointer `p`, the
self-reset `reset(get())` makes one deallocation call, on `p`, and leaves the owner holding
`p`; the destructor, or a `reset()`, run next makes a second deallocation call on the
same `p`. -/
theorem self_reset_then_second_deallocation (o : Owner) (log : Trace) (hp : o.get ≠ NULL) :
    (o.reset o.get log).2 = log ++ [o.kind.strategy o.get] ∧
      (o.reset o.get log).1.get = o.get ∧
      ((o.reset o.get log).1.dtor (o.reset o.get log).2).2 =
        log ++ [o.kind.strategy o.get, o.kind.strategy o.get] ∧
      ((o.reset o.get log).1.reset NULL (o.reset o.get log).2).2 =
        log ++ [o.kind.strategy o.get, o.kind.strategy o.get] ∧
      times_deallocated o.get ((o.reset o.get log).1.dtor (o.reset o.get log).2).2 =
        times_deallocated o.get log + 2 := by
  have h1 : (o.reset o.get log).2 = log ++ [o.kind.strategy o.get] := by
    rw [Owner.reset_log, if_pos hp]
  have hg : (o.reset o.get log).1.get = o.get := Owner.reset_get o o.get log
  have hk : (o.reset o.get log).1.kind = o.kind := Owner.reset_kind o o.get log
  have h2 : ((o.reset o.get log).1.reset NULL (o.reset o.get log).2).2 =
      log ++ [o.kind.strategy o.get, o.kind.strategy o.get] := by
    rw [Owner.reset_log, hg, hk, if_pos hp, h1, List.append_assoc]
    rfl
  refine ⟨h1, hg, ?_, h2, ?_⟩
  · rw [Owner.dtor_eq_reset, h2]
  · rw [Owner.dtor_eq_reset, h2]
    have e : log ++ [o.kind.strategy o.get, o.kind.strategy o.get] =
        log ++ [o.kind.strategy o.get] ++ [o.kind.strategy o.get] := by simp
    rw [e, times_deallocated_append, times_deallocated_append, times_deallocated_strategy]
    simp

/-- Witness of C18: a `scoped_aligned_ptr` holding address 5. -/
theorem self_reset_then_second_deallocation_witness :
    (Owner.aligned ⟨5⟩).get ≠ NULL ∧
      ((Owner.aligned ⟨5⟩).reset (Owner.aligned ⟨5⟩).get []).1.get = (Owner.aligned ⟨5⟩).get ∧
      (((Owner.aligned ⟨5⟩).reset (Owner.aligned ⟨5⟩).get []).1.dtor
        ((Owner.aligned ⟨5⟩).reset (Owner.aligned ⟨5⟩).get []).2).2 =
        [] ++ [Kind.scoped_aligned_ptr.strategy 5, Kind.scoped_aligned_ptr.strategy 5] :=
  ⟨by decide,
    (self_reset_then_second_deallocation (Owner.aligned ⟨5⟩) [] (by decide)).2.1,
    (self_reset_then_second_deallocation (Owner.aligned ⟨5⟩) [] (by decide)).2.2.1⟩

/-- C19: adopt-then-extract round trip. For every empty owner and every pointer `p`,
`reset(p)` followed by `release()` returns `p` and leaves the owner empty. For
`scoped_aligned_ptr` the trace, and with it the log of `alignedFree` calls, is exactly as
before; for `scoped_ptr` and `scoped_array` the deallocation calls on non-null pointers are
exactly as before. For all three, indeed, the whole trace is exactly as before. -/
theorem reset_release_round_trip (o : Owner) (p : Ptr) (log : Trace) (he : o.get = NULL) :
    ((o.reset p log).1.release (o.reset p log).2).1 = p ∧
      ((o.reset p log).1.release (o.reset p log).2).2.1.get = NULL ∧
      (dealloc_calls ((o.reset p log).1.release (o.reset p log).2).2.2).filter non_null =
        (dealloc_calls log).filter non_null ∧
      (o.kind = Kind.scoped_aligned_ptr →
        ((o.reset p log).1.release (o.reset p log).2).2.2 = log ∧
        alignedFree_calls ((o.reset p log).1.release (o.reset p log).2).2.2 =
          alignedFree_calls log) ∧
      ((o.reset p log).1.release (o.reset p log).2).2.2 = log := by
  have h : ((o.reset p log).1.release (o.reset p log).2).2.2 = log := by
    rw [Owner.release_log, Owner.reset_log]
    simp [he]
  refine ⟨?_, Owner.release_get _ _, by rw [h], fun _ => ⟨h, by rw [h]⟩, h⟩
  rw [Owner.release_fst, Owner.reset_get]

/-- Witness of C19: a default-constructed `scoped_aligned_ptr` adopts address 5 and gives
it back. -/
theorem reset_release_round_trip_witness :
    (Owner.aligned scoped_aligned_ptr.ctor_default).get = NULL ∧
      (((Owner.aligned scoped_aligned_ptr.ctor_default).reset 5 []).1.release
        ((Owner.aligned scoped_aligned_ptr.ctor_default).reset 5 []).2).1 = 5 ∧
      (((Owner.aligned scoped_aligned_ptr.ctor_default).reset 5 []).1.release
        ((Owner.aligned scoped_aligned_ptr.ctor_default).reset 5 []).2).2.2 = [] :=
  ⟨rfl,
    (reset_release_round_trip (Owner.aligned scoped_aligned_ptr.ctor_default) 5 [] rfl).1,
    ((reset_release_round_trip (Owner.aligned scoped_aligned_ptr.ctor_default) 5 []
      rfl).2.2.2.1 rfl).1⟩

end aocl_utils
